import Mathlib

/-
Verification of the Erlang process-lock subsystem
(`erts/emulator/beam/erl_process_lock.c`).

The lock word of a process holds, for each of the five process locks
(bits 0..ERTS_PROC_LOCK_MAX_BIT), a lock flag at bit `i` and a wait flag
at bit `i + ERTS_PROC_LOCK_WAITER_SHIFT`.  The word is a 32-bit atomic
(`erts_aint32_t`); we embed it as a `Nat` and perform all complement
arithmetic explicitly modulo `2 ^ 32`.

Wait queues are circular doubly-linked lists of `erts_tse_t` nodes; we
embed each queue as a `List Nat` of node identifiers in queue order
(head of the list = first waiter, tail insertion = enqueue position),
and the per-node `uflgs` field as a map from node identifier to mask.
-/

namespace ErlProcLock

/-- Word size of the lock flag field (`erts_aint32_t`). -/
def WORD32 : Nat := 2 ^ 32

/-- All 32 bits set; used to express the C bitwise complement `~x`
as `MASK32 ^^^ x`. -/
def MASK32 : Nat := 2 ^ 32 - 1

/-- Modelled from the spec (the constant lives in `erl_process_lock.h`,
which is not part of the sources): five facets, bits 0..4. -/
def ERTS_PROC_LOCK_MAX_BIT : Nat := 4

/-- Modelled from the spec: the waiter field starts right above the five
held bits (a fixed shift of at least the number of facets). -/
def ERTS_PROC_LOCK_WAITER_SHIFT : Nat := 5

/-- Modelled from the spec: mask of all five lock bits. -/
def ERTS_PROC_LOCKS_ALL : Nat := 31

/--
`in_order_locks` from `erl_process_lock.c` (lines 371-382):

    ErtsProcLocks busy = in_use & need_locks;
    ErtsProcLocks lowest_busy = busy & -busy;
    return need_locks & (lowest_busy - 1);

The negation and the decrement act on a 32-bit word, hence the explicit
`% WORD32` wrap-arounds (`0 - 1` wraps to all ones).
-/
def in_order_locks (in_use need_locks : Nat) : Nat :=
  let busy := in_use &&& need_locks
  let lowest_busy := busy &&& ((WORD32 - busy) % WORD32)
  need_locks &&& ((lowest_busy + (WORD32 - 1)) % WORD32)

/-- Index of the least set bit (fuel-bounded binary recursion; 32 bits of
fuel suffice for every value below `2 ^ 32`). -/
def lsbGo : Nat → Nat → Nat
  | 0, _ => 0
  | fuel+1, n => if n % 2 = 1 then 0 else lsbGo fuel (n / 2) + 1

/-- Least set bit of a 32-bit value (`lowestSetBit 0 = 32`). -/
def lowestSetBit (n : Nat) : Nat := lsbGo 32 n

/-! Small bit-level helper lemmas. -/

theorem tb31 (i : Nat) : (31 : Nat).testBit i = decide (i < 5) := by
  have h : (31 : Nat) = 2 ^ 5 - 1 := by norm_num
  rw [h, Nat.testBit_two_pow_sub_one]

theorem tbMask32 (i : Nat) : MASK32.testBit i = decide (i < 32) := by
  rw [MASK32, Nat.testBit_two_pow_sub_one]

theorem testBit_high_false {x i : Nat} (hx : x < 32) (hi : 5 ≤ i) :
    x.testBit i = false := by
  have h32 : (32 : Nat) ≤ 2 ^ i := by
    have h5 : (2 : Nat) ^ 5 ≤ 2 ^ i := Nat.pow_le_pow_right (by norm_num) hi
    simpa using h5
  exact Nat.testBit_lt_two_pow (by omega)

theorem and_low_bits (u n : Nat) (hn : n < 32) :
    u &&& n = (u &&& 31) &&& n := by
  apply Nat.eq_of_testBit_eq
  intro i
  rcases Nat.lt_or_ge i 5 with hi | hi
  · simp [Nat.testBit_land, tb31, hi]
  · simp [Nat.testBit_land, testBit_high_false hn hi]

theorem in_order_locks_low (u n : Nat) (hn : n < 32) :
    in_order_locks u n = in_order_locks (u &&& 31) n := by
  unfold in_order_locks
  rw [← and_low_bits u n hn]

/-- Core of the `in_order_locks` characterisation, checked exhaustively on
the full 5-bit domain. -/
theorem in_order_locks_core : ∀ u < 32, ∀ n < 32, ∀ i < 5,
    (in_order_locks u n).testBit i =
      (n.testBit i && !u.testBit i &&
        decide (∀ j ≤ i, (u &&& n).testBit j = false)) := by decide

theorem in_order_locks_lt (u n : Nat) (hn : n < 32) :
    in_order_locks u n < 32 := by
  have h : in_order_locks u n ≤ n := by
    unfold in_order_locks
    exact Nat.and_le_left
  omega

/-- C3: for every lock word `in_use` and every lock mask `need_locks`,
`in_order_locks in_use need_locks` is exactly `need_locks` intersected
with the complement of `in_use` intersected with the bits strictly below
the lowest bit of `need_locks &&& in_use` (no constraint at all from
facets that are in use but not needed); in particular when no needed
facet is in use the whole of `need_locks` is returned. -/
theorem in_order_locks_spec (u n : Nat) (hn : n < 32) :
    (∀ i, (in_order_locks u n).testBit i =
        (n.testBit i && !u.testBit i &&
          decide (∀ j ≤ i, (u &&& n).testBit j = false))) ∧
      (u &&& n = 0 → in_order_locks u n = n) := by
  have hu31 : u &&& 31 < 32 := by
    have h := Nat.and_le_right (n := u) (m := 31)
    omega
  have hpoint : ∀ i, (in_order_locks u n).testBit i =
      (n.testBit i && !u.testBit i &&
        decide (∀ j ≤ i, (u &&& n).testBit j = false)) := by
    intro i
    rcases Nat.lt_or_ge i 5 with hi | hi
    · have hcore := in_order_locks_core (u &&& 31) hu31 n hn i hi
      rw [in_order_locks_low u n hn, hcore]
      have hub : (u &&& 31).testBit i = u.testBit i := by
        simp [Nat.testBit_land, tb31, hi]
      have hbusy : ∀ j, ((u &&& 31) &&& n).testBit j = (u &&& n).testBit j := by
        intro j
        rw [← and_low_bits u n hn]
      rw [hub]
      congr 1
      simp only [decide_eq_decide]
      constructor
      · intro h j hj
        rw [← hbusy j]
        exact h j hj
      · intro h j hj
        rw [hbusy j]
        exact h j hj
    · rw [testBit_high_false (in_order_locks_lt u n hn) hi,
        testBit_high_false hn hi]
      simp
  refine ⟨hpoint, ?_⟩
  intro hbz
  apply Nat.eq_of_testBit_eq
  intro i
  rw [hpoint i, hbz]
  have hd : decide (∀ j ≤ i, (0 : Nat).testBit j = false) = true := by
    simp [Nat.zero_testBit]
  rw [hd, Bool.and_true]
  rcases Bool.eq_false_or_eq_true (n.testBit i) with h | h
  · have hu : u.testBit i = false := by
      rcases Bool.eq_false_or_eq_true (u.testBit i) with h2 | h2
      · exfalso
        have hb : (u &&& n).testBit i = true := by
          rw [Nat.testBit_land, h2, h]
          rfl
        rw [hbz, Nat.zero_testBit] at hb
        exact Bool.false_ne_true hb
      · exact h2
    simp [h, hu]
  · simp [h]

/-- C3 witness: the characterisation evaluated at `in_use = 4` (facet 2
held by someone else), `need_locks = 19`; facet 2 is not needed, so the
whole needed mask 19 comes back. -/
theorem in_order_locks_spec_witness :
    (19 : Nat) < 32 ∧ in_order_locks 4 19 = 19 :=
  ⟨by decide, (in_order_locks_spec 4 19 (by decide)).2 (by decide)⟩

/-! More bit-level helpers for the queue machinery. -/

theorem tb_shiftOne (n i : Nat) : (1 <<< n).testBit i = decide (n = i) := by
  have h : (1 : Nat) <<< n = 2 ^ n := by
    rw [Nat.shiftLeft_eq, Nat.one_mul]
  rw [h, Nat.testBit_two_pow]

theorem and_shiftOne_ne (x n : Nat) :
    (x &&& (1 <<< n) ≠ 0) ↔ x.testBit n = true := by
  have h : (1 : Nat) <<< n = 2 ^ n := by
    rw [Nat.shiftLeft_eq, Nat.one_mul]
  rw [h, Nat.and_two_pow]
  have hp : (2 : Nat) ^ n ≠ 0 := Nat.pos_iff_ne_zero.mp (Nat.pos_pow_of_pos n (by norm_num))
  rcases Bool.eq_false_or_eq_true (x.testBit n) with hb | hb <;> simp [hb, hp]

theorem tb_xor_mask (m i : Nat) (hi : i < 32) :
    (MASK32 ^^^ m).testBit i = !m.testBit i := by
  rw [Nat.testBit_xor, tbMask32]
  simp [hi]

/-!
The per-process lock structure (`erts_proc_lock_t`): the atomic flag
word and one wait queue per lock bit.  Each queue is the list of waiting
`erts_tse_t` nodes in queue order (head = first waiter); nodes are
identified by a `Nat`, and the per-node `uflgs` field lives in a
separate map `uf : Nat → Nat` (it is read and written only under the
pix lock, exactly as in the source).
-/

structure ProcLock where
  flags : Nat
  queue : Nat → List Nat

/-- `enqueue_waiter` (lines 189-204): append `wtr` at the tail of
queue `ix` (in the circular list the tail is `queue[ix]->prev`). -/
def enqueue_waiter (lck : ProcLock) (ix : Nat) (wtr : Nat) : ProcLock :=
  { lck with queue := fun i => if i = ix then lck.queue ix ++ [wtr] else lck.queue i }

/-- `dequeue_waiter` (lines 206-223): remove and return the head of
queue `ix`.  The source asserts the queue is non-empty; the `none`
branch models the (unreachable under the invariants) empty case. -/
def dequeue_waiter (lck : ProcLock) (ix : Nat) : Option (Nat × ProcLock) :=
  match lck.queue ix with
  | [] => none
  | w :: ws =>
    some (w, { lck with queue := fun i => if i = ix then ws else lck.queue i })

/-- Result of the `try_aquire` scan: the updated lock structure, the
mask of locks grabbed (`got_locks`), and the trace of successive values
taken by the atomic flag word (one entry per atomic write). -/
structure TARes where
  lck : ProcLock
  got : Nat
  tr : List Nat

/--
Loop body of `try_aquire` (lines 243-271), one iteration per lock bit in
ascending order, starting from `lock_no` with `fuel` iterations left:

    for (lock_no = 0; lock_no <= ERTS_PROC_LOCK_MAX_BIT; lock_no++) {
      lock = 1 << lock_no;
      if (locks & lock) {
        if (lck->queue[lock_no]) { enqueue_waiter(...); break; }
        wflg = lock << ERTS_PROC_LOCK_WAITER_SHIFT;
        old_lflgs = BOR_ACQB(lck, wflg | lock);
        if (old_lflgs & lock) { enqueue; break; }
        got_locks |= lock;
        BAND(lck, ~wflg);
        if (got_locks == locks) break;
      }
    }

Each atomic write to the flag word is also appended to the trace. -/
def try_aquire_go (wtr locks : Nat) :
    Nat → Nat → Nat → ProcLock → List Nat → TARes
  | 0, _, got, lck, tr => ⟨lck, got, tr⟩
  | fuel+1, lock_no, got, lck, tr =>
    let lock : Nat := 1 <<< lock_no
    if locks &&& lock ≠ 0 then
      if lck.queue lock_no ≠ [] then
        ⟨enqueue_waiter lck lock_no wtr, got, tr⟩
      else
        let wflg : Nat := lock <<< ERTS_PROC_LOCK_WAITER_SHIFT
        let old_lflgs := lck.flags
        let lck1 : ProcLock := { lck with flags := old_lflgs ||| (wflg ||| lock) }
        let tr1 := tr ++ [lck1.flags]
        if old_lflgs &&& lock ≠ 0 then
          ⟨enqueue_waiter lck1 lock_no wtr, got, tr1⟩
        else
          let got1 := got ||| lock
          let lck2 : ProcLock := { lck1 with flags := lck1.flags &&& (MASK32 ^^^ wflg) }
          let tr2 := tr1 ++ [lck2.flags]
          if got1 = locks then ⟨lck2, got1, tr2⟩
          else try_aquire_go wtr locks fuel (lock_no+1) got1 lck2 tr2
    else try_aquire_go wtr locks fuel (lock_no+1) got lck tr

/-- Result of `try_aquire` proper: lock structure, updated per-node
`uflgs` map, flag-word trace. -/
structure TA2Res where
  lck : ProcLock
  uf : Nat → Nat
  tr : List Nat

/-- `try_aquire` (lines 234-274): scan the needed bits `wtr->uflgs` in
ascending order and finally store the still-missing set back into
`wtr->uflgs` (`wtr->uflgs &= ~got_locks`). -/
def try_aquire (lck : ProcLock) (uf : Nat → Nat) (wtr : Nat) (tr : List Nat) :
    TA2Res :=
  let locks := uf wtr
  let r := try_aquire_go wtr locks (ERTS_PROC_LOCK_MAX_BIT + 1) 0 0 lck tr
  ⟨r.lck, fun x => if x = wtr then locks &&& (MASK32 ^^^ r.got) else uf x, r.tr⟩

theorem dlt_of_ne_succ {i n : Nat} (h : i ≠ n) :
    decide (i < n + 1) = decide (i < n) := by
  by_cases h2 : i < n
  · have e1 : decide (i < n) = true := by simp [h2]
    have e2 : decide (i < n + 1) = true := by simp; omega
    rw [e1, e2]
  · have e1 : decide (i < n) = false := by simp [h2]
    have e2 : decide (i < n + 1) = false := by simp; omega
    rw [e1, e2]

theorem tb_locks_lt {x i : Nat} (hx : x < 32) (ht : x.testBit i = true) :
    i < 5 := by
  by_contra h
  rw [testBit_high_false hx (by omega)] at ht
  exact Bool.false_ne_true ht

theorem tb_wflg (n i : Nat) :
    ((1 <<< n) <<< ERTS_PROC_LOCK_WAITER_SHIFT).testBit i = decide (n + 5 = i) := by
  rw [ERTS_PROC_LOCK_WAITER_SHIFT, Nat.testBit_shiftLeft, tb_shiftOne]
  rcases Nat.lt_or_ge i 5 with h | h
  · have h1 : decide (i ≥ 5) = false := by simp; omega
    have h2 : decide (n + 5 = i) = false := by simp; omega
    rw [h1, h2, Bool.false_and]
  · have h1 : decide (i ≥ 5) = true := by simp [h]
    rw [h1, Bool.true_and, decide_eq_decide]
    omega

/--
Postcondition of the `try_aquire` scan started at some `lock_no` with
already-got mask `got`: `s` is the bit index at which the scan stopped.
All needed bits below `s` were acquired; each acquired bit had an empty
queue and a clear lock flag and ends with a clear wait flag; either the
scan covered every needed bit and left every queue alone, or it stopped
at bit `s` (needed, and either queued-on or held) where the waiter got
enqueued at the tail, the wait flag of `s` being raised exactly when its
queue was previously empty, all other queues and wait flags untouched.
-/
def TAProp (wtr locks got : Nat) (lck : ProcLock) (r : TARes) (s : Nat) : Prop :=
  (∀ i, r.got.testBit i = (locks.testBit i && decide (i < s))) ∧
  (∀ i, i < 5 → r.lck.flags.testBit i =
      (lck.flags.testBit i || (r.got.testBit i && !got.testBit i))) ∧
  (∀ i, (r.got.testBit i && !got.testBit i) = true →
      lck.queue i = [] ∧ lck.flags.testBit i = false) ∧
  (∀ i, i < 5 → (r.got.testBit i && !got.testBit i) = true →
      r.lck.flags.testBit (i + 5) = false) ∧
  (((∀ i, locks.testBit i = true → i < s) ∧
      (∀ i, r.lck.queue i = lck.queue i) ∧
      (∀ i, i < 5 → (r.got.testBit i && !got.testBit i) = false →
        r.lck.flags.testBit (i + 5) = lck.flags.testBit (i + 5))) ∨
    (s < 5 ∧ locks.testBit s = true ∧
      r.lck.queue s = lck.queue s ++ [wtr] ∧
      (∀ i, i ≠ s → r.lck.queue i = lck.queue i) ∧
      (lck.queue s ≠ [] ∨ lck.flags.testBit s = true) ∧
      (lck.queue s ≠ [] → r.lck.flags.testBit (s + 5) = lck.flags.testBit (s + 5)) ∧
      (lck.queue s = [] → r.lck.flags.testBit (s + 5) = true) ∧
      (∀ i, i < 5 → (r.got.testBit i && !got.testBit i) = false → i ≠ s →
        r.lck.flags.testBit (i + 5) = lck.flags.testBit (i + 5))))

theorem try_aquire_go_spec (wtr locks : Nat) (hlocks : locks < 32) :
    ∀ fuel lock_no got lck tr, lock_no + fuel = 5 →
      (∀ i, got.testBit i = (locks.testBit i && decide (i < lock_no))) →
      ∃ s, lock_no ≤ s ∧ s ≤ 5 ∧
        TAProp wtr locks got lck (try_aquire_go wtr locks fuel lock_no got lck tr) s := by
  intro fuel
  induction fuel with
  | zero =>
    intro lock_no got lck tr hfuel hgot
    have hln : lock_no = 5 := by omega
    subst hln
    refine ⟨5, le_refl 5, le_refl 5, ?_, ?_, ?_, ?_, Or.inl ⟨?_, ?_, ?_⟩⟩
    · intro i
      rw [try_aquire_go]
      exact hgot i
    · intro i _
      rw [try_aquire_go]
      simp
    · intro i h
      rw [try_aquire_go] at h
      simp at h
    · intro i _ h
      rw [try_aquire_go] at h
      simp at h
    · intro i ht
      exact tb_locks_lt hlocks ht
    · intro i
      rw [try_aquire_go]
    · intro i _ _
      rw [try_aquire_go]
  | succ fuel ih =>
    intro lock_no got lck tr hfuel hgot
    have hln5 : lock_no < 5 := by omega
    by_cases hbit : locks &&& (1 <<< lock_no) ≠ 0
    · have hbt : locks.testBit lock_no = true := (and_shiftOne_ne locks lock_no).mp hbit
      by_cases hq : lck.queue lock_no ≠ []
      · -- branch Q: someone queued on this bit; enqueue and stop.
        have hstep : try_aquire_go wtr locks (fuel+1) lock_no got lck tr =
            ⟨enqueue_waiter lck lock_no wtr, got, tr⟩ := by
          rw [try_aquire_go, if_pos hbit, if_pos hq]
        rw [hstep]
        refine ⟨lock_no, le_refl lock_no, by omega, ?_, ?_, ?_, ?_, Or.inr ⟨hln5, hbt, ?_, ?_, Or.inl hq, ?_, ?_, ?_⟩⟩
        · exact hgot
        · intro i _
          simp [enqueue_waiter]
        · intro i h
          simp at h
        · intro i _ h
          simp at h
        · simp [enqueue_waiter]
        · intro i hi
          simp [enqueue_waiter, hi]
        · intro _
          simp [enqueue_waiter]
        · intro _
          exact absurd hq (by simp_all)
        · intro i _ _ _
          simp [enqueue_waiter]
      · have hqe : lck.queue lock_no = [] := by
          by_contra hc
          exact hq hc
        by_cases hheld : lck.flags &&& (1 <<< lock_no) ≠ 0
        · -- branch H: lock already held; set wait flag, enqueue, stop.
          have hht : lck.flags.testBit lock_no = true :=
            (and_shiftOne_ne lck.flags lock_no).mp hheld
          have hstep : try_aquire_go wtr locks (fuel+1) lock_no got lck tr =
              ⟨enqueue_waiter
                  { lck with flags := lck.flags |||
                      ((1 <<< lock_no) <<< ERTS_PROC_LOCK_WAITER_SHIFT ||| (1 <<< lock_no)) }
                  lock_no wtr,
                got, tr ++ [lck.flags |||
                  ((1 <<< lock_no) <<< ERTS_PROC_LOCK_WAITER_SHIFT ||| (1 <<< lock_no))]⟩ := by
            rw [try_aquire_go, if_pos hbit, if_neg (not_ne_iff.mpr hqe), if_pos hheld]
          rw [hstep]
          refine ⟨lock_no, le_refl lock_no, by omega, ?_, ?_, ?_, ?_,
            Or.inr ⟨hln5, hbt, ?_, ?_, Or.inr hht, ?_, ?_, ?_⟩⟩
          · exact hgot
          · intro i hi
            simp only [enqueue_waiter, Nat.testBit_lor, tb_wflg, tb_shiftOne]
            have h1 : decide (lock_no + 5 = i) = false := by simp; omega
            rw [h1]
            by_cases h2 : lock_no = i
            · subst h2
              simp [hht]
            · have h3 : decide (lock_no = i) = false := by simp [h2]
              simp [h3]
          · intro i h
            simp at h
          · intro i _ h
            simp at h
          · simp [enqueue_waiter]
          · intro i hi
            simp [enqueue_waiter, hi]
          · intro hc
            exact absurd hqe (by simp_all)
          · intro _
            simp only [enqueue_waiter, Nat.testBit_lor, tb_wflg, tb_shiftOne]
            simp
          · intro i hi _ hne
            simp only [enqueue_waiter, Nat.testBit_lor, tb_wflg, tb_shiftOne]
            have h1 : decide (lock_no + 5 = i + 5) = false := by simp; omega
            have h2 : decide (lock_no = i + 5) = false := by simp; omega
            rw [h1, h2]
            simp
        · -- lock is free with empty queue: acquire it.
          have hhf : lck.flags.testBit lock_no = false := by
            rcases Bool.eq_false_or_eq_true (lck.flags.testBit lock_no) with h | h
            · exact absurd ((and_shiftOne_ne lck.flags lock_no).mpr h) hheld
            · exact h
          have hg1 : ∀ i, (got ||| 1 <<< lock_no).testBit i =
              (locks.testBit i && decide (i < lock_no + 1)) := by
            intro i
            rw [Nat.testBit_lor, tb_shiftOne, hgot i]
            by_cases h : lock_no = i
            · subst h
              simp [hbt]
            · have h2 : decide (lock_no = i) = false := by simp [h]
              rw [h2, Bool.or_false, dlt_of_ne_succ (fun hc => h hc.symm)]
          have hfl2held : ∀ i, i < 5 →
              ((lck.flags ||| (1 <<< lock_no <<< ERTS_PROC_LOCK_WAITER_SHIFT ||| 1 <<< lock_no)) &&&
                (MASK32 ^^^ 1 <<< lock_no <<< ERTS_PROC_LOCK_WAITER_SHIFT)).testBit i =
              (lck.flags.testBit i || decide (lock_no = i)) := by
            intro i hi
            rw [Nat.testBit_land, tb_xor_mask _ i (by omega), tb_wflg,
              Nat.testBit_lor, Nat.testBit_lor, tb_wflg, tb_shiftOne]
            have h1 : decide (lock_no + 5 = i) = false := by simp; omega
            rw [h1]
            simp
          have hfl2wait : ∀ i, i < 5 →
              ((lck.flags ||| (1 <<< lock_no <<< ERTS_PROC_LOCK_WAITER_SHIFT ||| 1 <<< lock_no)) &&&
                (MASK32 ^^^ 1 <<< lock_no <<< ERTS_PROC_LOCK_WAITER_SHIFT)).testBit (i + 5) =
              (if i = lock_no then false else lck.flags.testBit (i + 5)) := by
            intro i hi
            rw [Nat.testBit_land, tb_xor_mask _ (i+5) (by omega), tb_wflg,
              Nat.testBit_lor, Nat.testBit_lor, tb_wflg, tb_shiftOne]
            by_cases h : i = lock_no
            · subst h
              simp
            · have h1 : decide (lock_no + 5 = i + 5) = false := by simp; omega
              have h2 : decide (lock_no = i + 5) = false := by simp; omega
              rw [h1, h2, if_neg h]
              simp
          by_cases hdone : got ||| 1 <<< lock_no = locks
          · -- branch A1: grab the last needed lock and stop.
            rw [try_aquire_go, if_pos hbit, if_neg (not_ne_iff.mpr hqe),
              if_neg hheld, if_pos hdone]
            refine ⟨lock_no + 1, by omega, by omega, ?_, ?_, ?_, ?_,
              Or.inl ⟨?_, ?_, ?_⟩⟩
            · exact hg1
            · intro i hi
              rw [hfl2held i hi, hg1 i, hgot i]
              by_cases h : lock_no = i
              · subst h
                have e1 : decide (lock_no < lock_no + 1) = true := by simp
                simp [hbt, e1, Nat.lt_irrefl]
              · have h2 : decide (lock_no = i) = false := by simp [h]
                rw [h2, dlt_of_ne_succ (fun hc => h hc.symm), Bool.and_not_self]
            · intro i hA
              rw [hg1 i, hgot i] at hA
              have hieq : i = lock_no := by
                by_cases h : i = lock_no
                · exact h
                · exfalso
                  rw [dlt_of_ne_succ h, Bool.and_not_self] at hA
                  exact Bool.false_ne_true hA
              subst hieq
              exact ⟨hqe, hhf⟩
            · intro i hi hA
              rw [hg1 i, hgot i] at hA
              have hieq : i = lock_no := by
                by_cases h : i = lock_no
                · exact h
                · exfalso
                  rw [dlt_of_ne_succ h, Bool.and_not_self] at hA
                  exact Bool.false_ne_true hA
              subst hieq
              rw [hfl2wait i hi, if_pos rfl]
            · intro i ht
              have h2 : (got ||| 1 <<< lock_no).testBit i = true := by
                rw [hdone]
                exact ht
              rw [Nat.testBit_lor, tb_shiftOne, hgot i] at h2
              by_cases h : lock_no = i
              · omega
              · have h3 : decide (lock_no = i) = false := by simp [h]
                rw [h3, Bool.or_false] at h2
                have h4 : decide (i < lock_no) = true := by
                  rcases Bool.eq_false_or_eq_true (decide (i < lock_no)) with h5 | h5
                  · exact h5
                  · rw [h5, Bool.and_false] at h2
                    exact absurd h2 Bool.false_ne_true
                have h6 := of_decide_eq_true h4
                omega
            · intro i
              rfl
            · intro i hi hA
              have hne : i ≠ lock_no := by
                intro hcon
                subst hcon
                rw [hg1 i, hgot i] at hA
                have e1 : decide (i < i + 1) = true := by simp
                simp [hbt, e1, Nat.lt_irrefl] at hA
              rw [hfl2wait i hi, if_neg hne]
          · -- branch A2: grab this lock and continue with the next bit.
            rw [try_aquire_go, if_pos hbit, if_neg (not_ne_iff.mpr hqe),
              if_neg hheld, if_neg hdone]
            obtain ⟨s, hs1, hs2, hC1, hC2, hC3, hC4, hC5⟩ :=
              ih (lock_no + 1) (got ||| 1 <<< lock_no)
                { flags := (lck.flags ||| (1 <<< lock_no <<< ERTS_PROC_LOCK_WAITER_SHIFT ||| 1 <<< lock_no)) &&&
                    (MASK32 ^^^ 1 <<< lock_no <<< ERTS_PROC_LOCK_WAITER_SHIFT),
                  queue := lck.queue }
                (tr ++ [lck.flags ||| (1 <<< lock_no <<< ERTS_PROC_LOCK_WAITER_SHIFT ||| 1 <<< lock_no)] ++
                  [(lck.flags ||| (1 <<< lock_no <<< ERTS_PROC_LOCK_WAITER_SHIFT ||| 1 <<< lock_no)) &&&
                    (MASK32 ^^^ 1 <<< lock_no <<< ERTS_PROC_LOCK_WAITER_SHIFT)])
                (by omega) hg1
            have hAlock : ((try_aquire_go wtr locks fuel (lock_no + 1) (got ||| 1 <<< lock_no)
                { flags := (lck.flags ||| (1 <<< lock_no <<< ERTS_PROC_LOCK_WAITER_SHIFT ||| 1 <<< lock_no)) &&&
                    (MASK32 ^^^ 1 <<< lock_no <<< ERTS_PROC_LOCK_WAITER_SHIFT),
                  queue := lck.queue }
                (tr ++ [lck.flags ||| (1 <<< lock_no <<< ERTS_PROC_LOCK_WAITER_SHIFT ||| 1 <<< lock_no)] ++
                  [(lck.flags ||| (1 <<< lock_no <<< ERTS_PROC_LOCK_WAITER_SHIFT ||| 1 <<< lock_no)) &&&
                    (MASK32 ^^^ 1 <<< lock_no <<< ERTS_PROC_LOCK_WAITER_SHIFT)])).got.testBit lock_no &&
                !got.testBit lock_no) = true := by
              rw [hC1 lock_no, hgot lock_no]
              have e1 : decide (lock_no < s) = true := by simp; omega
              simp [hbt, e1, Nat.lt_irrefl]
            have hAtrans : ∀ i, i ≠ lock_no →
                (got ||| 1 <<< lock_no).testBit i = got.testBit i := by
              intro i h
              rw [Nat.testBit_lor, tb_shiftOne]
              have h2 : decide (lock_no = i) = false := by simp; omega
              rw [h2, Bool.or_false]
            refine ⟨s, by omega, hs2, hC1, ?_, ?_, ?_, ?_⟩
            · intro i hi
              rw [hC2 i hi, hfl2held i hi, hC1 i, hg1 i, hgot i]
              by_cases h : lock_no = i
              · subst h
                have e1 : decide (lock_no < s) = true := by simp; omega
                have e2 : decide (lock_no < lock_no + 1) = true := by simp
                simp [hbt, e1, e2, Nat.lt_irrefl]
              · have h2 : decide (lock_no = i) = false := by simp [h]
                rw [h2, dlt_of_ne_succ (fun hc => h hc.symm), Bool.or_false]
            · intro i hA
              by_cases h : i = lock_no
              · subst h
                exact ⟨hqe, hhf⟩
              · have hA' := hA
                rw [← hAtrans i h] at hA'
                obtain ⟨hq2, hf2⟩ := hC3 i hA'
                refine ⟨hq2, ?_⟩
                have hi5 : i < 5 := by
                  have h3 := hA
                  rw [Bool.and_eq_true] at h3
                  obtain ⟨h4, _⟩ := h3
                  rw [hC1 i, Bool.and_eq_true] at h4
                  exact tb_locks_lt hlocks h4.1
                rw [hfl2held i hi5] at hf2
                have h2 : decide (lock_no = i) = false := by simp; omega
                rw [h2, Bool.or_false] at hf2
                exact hf2
            · intro i hi hA
              by_cases h : i = lock_no
              · subst h
                rcases hC5 with ⟨_, _, hW⟩ | ⟨_, _, _, _, _, _, _, hW⟩
                · have hz : ((try_aquire_go wtr locks fuel (i + 1) (got ||| 1 <<< i)
                      { flags := (lck.flags ||| (1 <<< i <<< ERTS_PROC_LOCK_WAITER_SHIFT ||| 1 <<< i)) &&&
                          (MASK32 ^^^ 1 <<< i <<< ERTS_PROC_LOCK_WAITER_SHIFT),
                        queue := lck.queue }
                      (tr ++ [lck.flags ||| (1 <<< i <<< ERTS_PROC_LOCK_WAITER_SHIFT ||| 1 <<< i)] ++
                        [(lck.flags ||| (1 <<< i <<< ERTS_PROC_LOCK_WAITER_SHIFT ||| 1 <<< i)) &&&
                          (MASK32 ^^^ 1 <<< i <<< ERTS_PROC_LOCK_WAITER_SHIFT)])).got.testBit i &&
                      !(got ||| 1 <<< i).testBit i) = false := by
                    rw [Nat.testBit_lor, tb_shiftOne]
                    simp
                  rw [hW i hi hz, hfl2wait i hi, if_pos rfl]
                · have hz : ((try_aquire_go wtr locks fuel (i + 1) (got ||| 1 <<< i)
                      { flags := (lck.flags ||| (1 <<< i <<< ERTS_PROC_LOCK_WAITER_SHIFT ||| 1 <<< i)) &&&
                          (MASK32 ^^^ 1 <<< i <<< ERTS_PROC_LOCK_WAITER_SHIFT),
                        queue := lck.queue }
                      (tr ++ [lck.flags ||| (1 <<< i <<< ERTS_PROC_LOCK_WAITER_SHIFT ||| 1 <<< i)] ++
                        [(lck.flags ||| (1 <<< i <<< ERTS_PROC_LOCK_WAITER_SHIFT ||| 1 <<< i)) &&&
                          (MASK32 ^^^ 1 <<< i <<< ERTS_PROC_LOCK_WAITER_SHIFT)])).got.testBit i &&
                      !(got ||| 1 <<< i).testBit i) = false := by
                    rw [Nat.testBit_lor, tb_shiftOne]
                    simp
                  rw [hW i hi hz (by omega), hfl2wait i hi, if_pos rfl]
              · have hA' := hA
                rw [← hAtrans i h] at hA'
                exact hC4 i hi hA'
            · rcases hC5 with ⟨hLa, hQa, hWa⟩ | ⟨hs5, hlks, hqs, hqo, hstop, hwn, hwe, hWb⟩
              · refine Or.inl ⟨hLa, ?_, ?_⟩
                · intro i
                  exact hQa i
                · intro i hi hA
                  have hne : i ≠ lock_no := by
                    intro hcon
                    rw [hcon, hAlock] at hA
                    simp at hA
                  rw [hWa i hi (by rw [← hAtrans i hne] at hA; exact hA),
                    hfl2wait i hi, if_neg hne]
              · have hsneq : s ≠ lock_no := by omega
                refine Or.inr ⟨hs5, hlks, hqs, hqo, ?_, ?_, ?_, ?_⟩
                · rcases hstop with hl | hr
                  · exact Or.inl hl
                  · rw [hfl2held s hs5] at hr
                    have hd : decide (lock_no = s) = false := by simp; omega
                    rw [hd, Bool.or_false] at hr
                    exact Or.inr hr
                · intro h2
                  rw [hwn h2, hfl2wait s hs5, if_neg hsneq]
                · intro h2
                  exact hwe h2
                · intro i hi hA hnes
                  have hne : i ≠ lock_no := by
                    intro hcon
                    rw [hcon, hAlock] at hA
                    simp at hA
                  rw [hWb i hi (by rw [← hAtrans i hne] at hA; exact hA) hnes,
                    hfl2wait i hi, if_neg hne]
    · -- branch X: bit not needed, skip.
      have hbf : locks.testBit lock_no = false := by
        rcases Bool.eq_false_or_eq_true (locks.testBit lock_no) with h | h
        · exact absurd ((and_shiftOne_ne locks lock_no).mpr h) hbit
        · exact h
      have hstep : try_aquire_go wtr locks (fuel+1) lock_no got lck tr =
          try_aquire_go wtr locks fuel (lock_no+1) got lck tr := by
        rw [try_aquire_go, if_neg hbit]
      rw [hstep]
      have hgot1 : ∀ i, got.testBit i = (locks.testBit i && decide (i < lock_no + 1)) := by
        intro i
        by_cases h : i = lock_no
        · subst h
          rw [hgot i, hbf]
          simp
        · rw [hgot i]
          by_cases h2 : i < lock_no
          · have e1 : decide (i < lock_no) = true := by simp [h2]
            have e2 : decide (i < lock_no + 1) = true := by simp; omega
            rw [e1, e2]
          · have e1 : decide (i < lock_no) = false := by simp [h2]
            have e2 : decide (i < lock_no + 1) = false := by simp; omega
            rw [e1, e2]
      obtain ⟨s, hs1, hs2, hp⟩ := ih (lock_no+1) got lck tr (by omega) hgot1
      exact ⟨s, by omega, hs2, hp⟩

/-- C4: `try_aquire` scans the waiter's needed bits in ascending order,
acquiring each facet that is free with an empty queue and stopping at
the first facet with a non-empty queue or an already-set lock flag; on
return the waiter's needed mask (`wtr->uflgs`) is the still-missing set
(the acquired facets being exactly the newly set lock flags), and the
waiter node is linked on at most one facet queue — at the tail of the
queue of the lowest missing facet — or on none when every bit was
acquired. -/
theorem try_aquire_spec (lck : ProcLock) (uf : Nat → Nat) (wtr : Nat)
    (tr : List Nat) (hlocks : uf wtr < 32) (hw : ∀ i, wtr ∉ lck.queue i) :
    (∀ i, i < 5 → (try_aquire lck uf wtr tr).lck.flags.testBit i =
        (lck.flags.testBit i ||
          ((uf wtr).testBit i && !((try_aquire lck uf wtr tr).uf wtr).testBit i))) ∧
    (∀ i, ((uf wtr).testBit i && !((try_aquire lck uf wtr tr).uf wtr).testBit i) = true →
        lck.queue i = [] ∧ lck.flags.testBit i = false) ∧
    ((try_aquire lck uf wtr tr).uf wtr = 0 →
        (∀ i, (try_aquire lck uf wtr tr).lck.queue i = lck.queue i) ∧
        (∀ i, wtr ∉ (try_aquire lck uf wtr tr).lck.queue i)) ∧
    ((try_aquire lck uf wtr tr).uf wtr ≠ 0 →
        ∃ lb, lb < 5 ∧ ((try_aquire lck uf wtr tr).uf wtr).testBit lb = true ∧
          (∀ j, j < lb → ((try_aquire lck uf wtr tr).uf wtr).testBit j = false) ∧
          (try_aquire lck uf wtr tr).lck.queue lb = lck.queue lb ++ [wtr] ∧
          (∀ i, i ≠ lb → (try_aquire lck uf wtr tr).lck.queue i = lck.queue i) ∧
          (lck.queue lb ≠ [] ∨ lck.flags.testBit lb = true) ∧
          (∀ i, i ≠ lb → wtr ∉ (try_aquire lck uf wtr tr).lck.queue i)) := by
  obtain ⟨s, hs0, hs5, hC1, hC2, hC3, hC4, hC5⟩ :=
    try_aquire_go_spec wtr (uf wtr) hlocks (ERTS_PROC_LOCK_MAX_BIT + 1) 0 0 lck tr
      (by rw [ERTS_PROC_LOCK_MAX_BIT]) (by intro i; simp [Nat.zero_testBit])
  simp only [try_aquire, if_true, eq_self_iff_true]
  have hmiss : ∀ i,
      ((uf wtr) &&& (MASK32 ^^^
        (try_aquire_go wtr (uf wtr) (ERTS_PROC_LOCK_MAX_BIT + 1) 0 0 lck tr).got)).testBit i =
      ((uf wtr).testBit i &&
        !(try_aquire_go wtr (uf wtr) (ERTS_PROC_LOCK_MAX_BIT + 1) 0 0 lck tr).got.testBit i) := by
    intro i
    rcases Nat.lt_or_ge i 32 with hi | hi
    · rw [Nat.testBit_land, tb_xor_mask _ i hi]
    · rw [Nat.testBit_land, testBit_high_false hlocks (by omega)]
      simp
  have hacq : ∀ i,
      ((uf wtr).testBit i &&
        !((uf wtr) &&& (MASK32 ^^^
          (try_aquire_go wtr (uf wtr) (ERTS_PROC_LOCK_MAX_BIT + 1) 0 0 lck tr).got)).testBit i) =
      (try_aquire_go wtr (uf wtr) (ERTS_PROC_LOCK_MAX_BIT + 1) 0 0 lck tr).got.testBit i := by
    intro i
    rw [hmiss i, hC1 i]
    rcases Bool.eq_false_or_eq_true ((uf wtr).testBit i) with h | h <;> simp [h]
  refine ⟨?_, ?_, ?_, ?_⟩
  · intro i hi
    rw [hC2 i hi, hacq i]
    simp [Nat.zero_testBit]
  · intro i hA
    rw [hacq i] at hA
    have h2 : ((try_aquire_go wtr (uf wtr) (ERTS_PROC_LOCK_MAX_BIT + 1) 0 0 lck tr).got.testBit i &&
        !(0 : Nat).testBit i) = true := by
      rw [Nat.zero_testBit]
      simpa using hA
    exact hC3 i h2
  · intro h0m
    rcases hC5 with ⟨hLa, hQa, hWa⟩ | ⟨hs5', hlks, _, _, _, _, _, _⟩
    · refine ⟨hQa, fun i => ?_⟩
      rw [hQa i]
      exact hw i
    · exfalso
      have hms : ((uf wtr) &&& (MASK32 ^^^
          (try_aquire_go wtr (uf wtr) (ERTS_PROC_LOCK_MAX_BIT + 1) 0 0 lck tr).got)).testBit s
          = true := by
        rw [hmiss s, hC1 s]
        simp [hlks, Nat.lt_irrefl]
      rw [h0m, Nat.zero_testBit] at hms
      exact Bool.false_ne_true hms
  · intro hnm
    rcases hC5 with ⟨hLa, hQa, hWa⟩ | ⟨hs5', hlks, hqs, hqo, hstop, _, _, _⟩
    · exfalso
      apply hnm
      apply Nat.eq_of_testBit_eq
      intro i
      rw [hmiss i, hC1 i, Nat.zero_testBit]
      rcases Bool.eq_false_or_eq_true ((uf wtr).testBit i) with h | h
      · have hlt := hLa i h
        have e : decide (i < s) = true := by simp [hlt]
        rw [h, e]
        rfl
      · rw [h]
        rfl
    · refine ⟨s, hs5', ?_, ?_, hqs, hqo, hstop, ?_⟩
      · rw [hmiss s, hC1 s]
        simp [hlks, Nat.lt_irrefl]
      · intro j hj
        rw [hmiss j, hC1 j]
        have e : decide (j < s) = true := by simp; omega
        rw [e, Bool.and_true, Bool.and_not_self]
      · intro i hne
        rw [hqo i hne]
        exact hw i

/-- C4 witness: a fresh waiter needing mask 5 on an unlocked process
with empty queues acquires everything; the missing mask ends up 0 and
no queue is touched. -/
theorem try_aquire_spec_witness :
    ((try_aquire ⟨0, fun _ => []⟩ (fun _ => 5) 7 []).uf 7 = 0 →
      (∀ i, (try_aquire ⟨0, fun _ => []⟩ (fun _ => 5) 7 []).lck.queue i =
        (⟨0, fun _ => []⟩ : ProcLock).queue i) ∧
      (∀ i, 7 ∉ (try_aquire ⟨0, fun _ => []⟩ (fun _ => 5) 7 []).lck.queue i)) ∧
    (try_aquire ⟨0, fun _ => []⟩ (fun _ => 5) 7 []).uf 7 = 0 :=
  ⟨(try_aquire_spec ⟨0, fun _ => []⟩ (fun _ => 5) 7 [] (by decide)
      (fun i => by simp)).2.2.1,
    by decide⟩

/-!
The release slow path: `transfer_locks` hands locks held by the
releasing thread over to the head waiter of each released facet's
queue, without ever clearing the lock bit of a transferred facet.
-/

/-- State threaded through the `transfer_locks` loop: the lock
structure, the per-node `uflgs` map, the accumulated `unset_waiter`
mask, the wake list (in the LIFO order the source builds via
`wtr->next = wake; wake = wtr`), the `transferred` counter, and the
trace of successive flag-word values. -/
structure XferState where
  lck : ProcLock
  uf : Nat → Nat
  unset_waiter : Nat
  wake : List Nat
  transferred : Nat
  tr : List Nat

/-- Loop body of `transfer_locks` (lines 301-329): for each bit of
`trnsfr_lcks` in ascending order, dequeue the head waiter, mark the
waiter bit for clearing when the queue drained, clear the transferred
bit from the waiter's `uflgs`, run `try_aquire` for its remaining bits,
and push it on the wake list when nothing is missing any more.  The
`none` arm of the dequeue models the source's asserted-unreachable
empty-queue case as a skip. -/
def transfer_locks_go (trnsfr : Nat) : Nat → Nat → XferState → XferState
  | 0, _, s => s
  | fuel+1, lock_no, s =>
    if trnsfr &&& (1 <<< lock_no) ≠ 0 then
      match dequeue_waiter s.lck lock_no with
      | none => transfer_locks_go trnsfr fuel (lock_no+1) s
      | some (wtr, lck1) =>
        let unset1 := if lck1.queue lock_no = [] then s.unset_waiter ||| (1 <<< lock_no)
          else s.unset_waiter
        let uf1 : Nat → Nat := fun x =>
          if x = wtr then s.uf wtr &&& (MASK32 ^^^ (1 <<< lock_no)) else s.uf x
        let r : TA2Res := if uf1 wtr ≠ 0 then try_aquire lck1 uf1 wtr s.tr
          else ⟨lck1, uf1, s.tr⟩
        let wake1 := if r.uf wtr = 0 then wtr :: s.wake else s.wake
        transfer_locks_go trnsfr fuel (lock_no+1)
          ⟨r.lck, r.uf, unset1, wake1, s.transferred + 1, r.tr⟩
    else transfer_locks_go trnsfr fuel (lock_no+1) s

/-- `transfer_locks` (lines 282-360): run the transfer loop over all
lock bits, then clear with one `BAND` the wait flags of the facets
whose queues drained (`unset_waiter <<= ERTS_PROC_LOCK_WAITER_SHIFT;
BAND(&p->lock, ~unset_waiter)`).  The initial trace holds the flag word
at entry. -/
def transfer_locks (lck : ProcLock) (uf : Nat → Nat) (trnsfr : Nat) : XferState :=
  let s1 := transfer_locks_go trnsfr (ERTS_PROC_LOCK_MAX_BIT + 1) 0
    ⟨lck, uf, 0, [], 0, [lck.flags]⟩
  if s1.unset_waiter ≠ 0 then
    { s1 with
      lck := { s1.lck with flags := s1.lck.flags &&&
        (MASK32 ^^^ (s1.unset_waiter <<< ERTS_PROC_LOCK_WAITER_SHIFT)) },
      tr := s1.tr ++ [s1.lck.flags &&&
        (MASK32 ^^^ (s1.unset_waiter <<< ERTS_PROC_LOCK_WAITER_SHIFT))] }
  else s1

/-- Between two successive values of the flag word, no lock bit was
cleared. -/
def heldLe (a b : Nat) : Prop := ∀ i, i < 5 → a.testBit i = true → b.testBit i = true

theorem heldLe_or (a m : Nat) : heldLe a (a ||| m) := by
  intro i _ h
  rw [Nat.testBit_lor, h]
  rfl

theorem heldLe_band {w : Nat} (a : Nat) (hw : ∀ i, i < 5 → w.testBit i = false) :
    heldLe a (a &&& (MASK32 ^^^ w)) := by
  intro i hi h
  rw [Nat.testBit_land, tb_xor_mask w i (by omega), hw i hi, h]
  rfl

theorem tb_shift5_low (m i : Nat) (hi : i < 5) :
    (m <<< ERTS_PROC_LOCK_WAITER_SHIFT).testBit i = false := by
  rw [ERTS_PROC_LOCK_WAITER_SHIFT, Nat.testBit_shiftLeft]
  have h : decide (i ≥ 5) = false := by simp; omega
  rw [h, Bool.false_and]

theorem chain_snoc {l : List Nat} {a b : Nat} (hc : List.Chain' heldLe l)
    (hl : l.getLast? = some a) (hab : heldLe a b) :
    List.Chain' heldLe (l ++ [b]) ∧ (l ++ [b]).getLast? = some b ∧
      (l ++ [b]).head? = l.head? := by
  have hne : l ≠ [] := by
    intro hcon
    rw [hcon] at hl
    simp at hl
  refine ⟨?_, List.getLast?_concat l, ?_⟩
  · rw [List.chain'_append]
    refine ⟨hc, List.chain'_singleton b, ?_⟩
    intro x hx y hy
    rw [hl] at hx
    simp at hx hy
    subst hx
    subst hy
    exact hab
  · cases l with
    | nil => exact absurd rfl hne
    | cons c t => rfl

theorem chain_all (i : Nat) (hi : i < 5) :
    ∀ (l : List Nat) (a : Nat), List.Chain' heldLe (a :: l) → a.testBit i = true →
      ∀ x ∈ a :: l, x.testBit i = true := by
  intro l
  induction l with
  | nil =>
    intro a _ ha x hx
    simp at hx
    subst hx
    exact ha
  | cons b l ihl =>
    intro a hc ha x hx
    rw [List.chain'_cons] at hc
    rcases List.mem_cons.mp hx with h | h
    · subst h
      exact ha
    · exact ihl b hc.2 (hc.1 i hi ha) x h

theorem try_aquire_go_chain (wtr locks : Nat) :
    ∀ fuel lock_no got lck tr,
      List.Chain' heldLe tr → tr.getLast? = some lck.flags →
      List.Chain' heldLe (try_aquire_go wtr locks fuel lock_no got lck tr).tr ∧
        (try_aquire_go wtr locks fuel lock_no got lck tr).tr.getLast? =
          some (try_aquire_go wtr locks fuel lock_no got lck tr).lck.flags ∧
        (try_aquire_go wtr locks fuel lock_no got lck tr).tr.head? = tr.head? := by
  intro fuel
  induction fuel with
  | zero =>
    intro lock_no got lck tr hc hl
    rw [try_aquire_go]
    exact ⟨hc, hl, rfl⟩
  | succ fuel ih =>
    intro lock_no got lck tr hc hl
    by_cases hbit : locks &&& (1 <<< lock_no) ≠ 0
    · by_cases hq : lck.queue lock_no ≠ []
      · rw [try_aquire_go, if_pos hbit, if_pos hq]
        exact ⟨hc, hl, rfl⟩
      · have hqe : lck.queue lock_no = [] := by
          by_contra hcn
          exact hq hcn
        by_cases hheld : lck.flags &&& (1 <<< lock_no) ≠ 0
        · rw [try_aquire_go, if_pos hbit, if_neg (not_ne_iff.mpr hqe), if_pos hheld]
          have h1 := chain_snoc hc hl
            (heldLe_or lck.flags (1 <<< lock_no <<< ERTS_PROC_LOCK_WAITER_SHIFT ||| 1 <<< lock_no))
          exact ⟨h1.1, h1.2.1, h1.2.2⟩
        · have hw5 : ∀ i, i < 5 →
              ((1 : Nat) <<< lock_no <<< ERTS_PROC_LOCK_WAITER_SHIFT).testBit i = false := by
            intro i hi
            rw [tb_wflg]
            simp
            omega
          have h1 := chain_snoc hc hl
            (heldLe_or lck.flags (1 <<< lock_no <<< ERTS_PROC_LOCK_WAITER_SHIFT ||| 1 <<< lock_no))
          have h2 := chain_snoc h1.1 h1.2.1
            (heldLe_band (lck.flags ||| (1 <<< lock_no <<< ERTS_PROC_LOCK_WAITER_SHIFT ||| 1 <<< lock_no)) hw5)
          by_cases hdone : got ||| 1 <<< lock_no = locks
          · rw [try_aquire_go, if_pos hbit, if_neg (not_ne_iff.mpr hqe), if_neg hheld,
              if_pos hdone]
            refine ⟨h2.1, h2.2.1, ?_⟩
            rw [h2.2.2, h1.2.2]
          · rw [try_aquire_go, if_pos hbit, if_neg (not_ne_iff.mpr hqe), if_neg hheld,
              if_neg hdone]
            have h3 := ih (lock_no+1) (got ||| 1 <<< lock_no)
              { flags := (lck.flags ||| (1 <<< lock_no <<< ERTS_PROC_LOCK_WAITER_SHIFT ||| 1 <<< lock_no)) &&&
                  (MASK32 ^^^ 1 <<< lock_no <<< ERTS_PROC_LOCK_WAITER_SHIFT),
                queue := lck.queue }
              (tr ++ [lck.flags ||| (1 <<< lock_no <<< ERTS_PROC_LOCK_WAITER_SHIFT ||| 1 <<< lock_no)] ++
                [(lck.flags ||| (1 <<< lock_no <<< ERTS_PROC_LOCK_WAITER_SHIFT ||| 1 <<< lock_no)) &&&
                  (MASK32 ^^^ 1 <<< lock_no <<< ERTS_PROC_LOCK_WAITER_SHIFT)])
              h2.1 h2.2.1
            refine ⟨h3.1, h3.2.1, ?_⟩
            rw [h3.2.2, h2.2.2, h1.2.2]
    · rw [try_aquire_go, if_neg hbit]
      exact ih (lock_no+1) got lck tr hc hl

theorem try_aquire_chain (lck : ProcLock) (uf : Nat → Nat) (wtr : Nat)
    (tr : List Nat) (hc : List.Chain' heldLe tr)
    (hl : tr.getLast? = some lck.flags) :
    List.Chain' heldLe (try_aquire lck uf wtr tr).tr ∧
      (try_aquire lck uf wtr tr).tr.getLast? = some (try_aquire lck uf wtr tr).lck.flags ∧
      (try_aquire lck uf wtr tr).tr.head? = tr.head? := by
  simp only [try_aquire]
  exact try_aquire_go_chain wtr (uf wtr) (ERTS_PROC_LOCK_MAX_BIT + 1) 0 0 lck tr hc hl

theorem transfer_locks_go_chain (trnsfr : Nat) :
    ∀ fuel lock_no (s : XferState),
      List.Chain' heldLe s.tr → s.tr.getLast? = some s.lck.flags →
      List.Chain' heldLe (transfer_locks_go trnsfr fuel lock_no s).tr ∧
        (transfer_locks_go trnsfr fuel lock_no s).tr.getLast? =
          some (transfer_locks_go trnsfr fuel lock_no s).lck.flags ∧
        (transfer_locks_go trnsfr fuel lock_no s).tr.head? = s.tr.head? := by
  intro fuel
  induction fuel with
  | zero =>
    intro lock_no s hc hl
    rw [transfer_locks_go]
    exact ⟨hc, hl, rfl⟩
  | succ fuel ih =>
    intro lock_no s hc hl
    by_cases hbit : trnsfr &&& (1 <<< lock_no) ≠ 0
    · rw [transfer_locks_go, if_pos hbit]
      rcases hdq : dequeue_waiter s.lck lock_no with _ | ⟨wtr, lck1⟩
      · exact ih (lock_no+1) s hc hl
      · have hfl1 : lck1.flags = s.lck.flags := by
          unfold dequeue_waiter at hdq
          rcases hq : s.lck.queue lock_no with _ | ⟨w, ws⟩
          · rw [hq] at hdq
            cases hdq
          · rw [hq] at hdq
            cases hdq
            rfl
        dsimp only
        have hite : (if wtr = wtr then s.uf wtr &&& (MASK32 ^^^ (1 <<< lock_no))
            else s.uf wtr) = s.uf wtr &&& (MASK32 ^^^ (1 <<< lock_no)) := if_pos rfl
        rw [hite]
        by_cases hu : s.uf wtr &&& (MASK32 ^^^ (1 <<< lock_no)) ≠ 0
        · rw [if_pos hu]
          have h1 := try_aquire_chain lck1
            (fun x => if x = wtr then s.uf wtr &&& (MASK32 ^^^ (1 <<< lock_no)) else s.uf x)
            wtr s.tr hc (by rw [hfl1]; exact hl)
          have h2 := ih (lock_no+1)
            ⟨(try_aquire lck1
                (fun x => if x = wtr then s.uf wtr &&& (MASK32 ^^^ (1 <<< lock_no)) else s.uf x)
                wtr s.tr).lck,
              (try_aquire lck1
                (fun x => if x = wtr then s.uf wtr &&& (MASK32 ^^^ (1 <<< lock_no)) else s.uf x)
                wtr s.tr).uf,
              (if lck1.queue lock_no = [] then s.unset_waiter ||| (1 <<< lock_no)
                else s.unset_waiter),
              (if (try_aquire lck1
                  (fun x => if x = wtr then s.uf wtr &&& (MASK32 ^^^ (1 <<< lock_no)) else s.uf x)
                  wtr s.tr).uf wtr = 0 then wtr :: s.wake else s.wake),
              s.transferred + 1,
              (try_aquire lck1
                (fun x => if x = wtr then s.uf wtr &&& (MASK32 ^^^ (1 <<< lock_no)) else s.uf x)
                wtr s.tr).tr⟩ h1.1 h1.2.1
          exact ⟨h2.1, h2.2.1, h2.2.2.trans h1.2.2⟩
        · rw [if_neg hu]
          dsimp only
          rw [hite]
          have h2 := ih (lock_no+1)
            ⟨lck1,
              (fun x => if x = wtr then s.uf wtr &&& (MASK32 ^^^ (1 <<< lock_no)) else s.uf x),
              (if lck1.queue lock_no = [] then s.unset_waiter ||| (1 <<< lock_no)
                else s.unset_waiter),
              (if s.uf wtr &&& (MASK32 ^^^ (1 <<< lock_no)) = 0 then wtr :: s.wake else s.wake),
              s.transferred + 1, s.tr⟩ hc (by rw [hfl1]; exact hl)
          exact ⟨h2.1, h2.2.1, h2.2.2⟩
    · rw [transfer_locks_go, if_neg hbit]
      exact ih (lock_no+1) s hc hl

/-- C5: along the whole `transfer_locks` run no lock bit of the flag
word is ever cleared: the trace of flag-word values (one entry per
atomic write, starting from the value at entry) is a chain under
`heldLe`, so every lock bit held at entry stays set in every
intermediate and final value — the flag word is only ever grown by
`BOR`, or shrunk by `BAND`s whose masks touch only the waiter field. -/
theorem transfer_locks_held_continuity (lck : ProcLock) (uf : Nat → Nat)
    (trnsfr : Nat) :
    List.Chain' heldLe (transfer_locks lck uf trnsfr).tr ∧
    (transfer_locks lck uf trnsfr).tr.head? = some lck.flags ∧
    (∀ i, i < 5 → lck.flags.testBit i = true →
      ∀ x ∈ (transfer_locks lck uf trnsfr).tr, x.testBit i = true) := by
  have h0 := transfer_locks_go_chain trnsfr (ERTS_PROC_LOCK_MAX_BIT + 1) 0
    ⟨lck, uf, 0, [], 0, [lck.flags]⟩ (List.chain'_singleton lck.flags) rfl
  have hmain : List.Chain' heldLe (transfer_locks lck uf trnsfr).tr ∧
      (transfer_locks lck uf trnsfr).tr.head? = some lck.flags := by
    rw [transfer_locks]
    set s1 := transfer_locks_go trnsfr (ERTS_PROC_LOCK_MAX_BIT + 1) 0
      ⟨lck, uf, 0, [], 0, [lck.flags]⟩ with hs1
    by_cases hz : s1.unset_waiter ≠ 0
    · rw [if_pos hz]
      have hb := chain_snoc h0.1 h0.2.1
        (heldLe_band s1.lck.flags
          (fun i hi => tb_shift5_low (s1.unset_waiter) i hi))
      refine ⟨hb.1, ?_⟩
      rw [hb.2.2]
      exact h0.2.2
    · rw [if_neg hz]
      refine ⟨h0.1, ?_⟩
      exact h0.2.2
  refine ⟨hmain.1, hmain.2, ?_⟩
  intro i hi hset x hx
  rcases htr : (transfer_locks lck uf trnsfr).tr with _ | ⟨a, l⟩
  · rw [htr] at hx
    cases hx
  · have hh := hmain.2
    rw [htr] at hh hx
    simp at hh
    subst hh
    exact chain_all i hi l lck.flags (by rw [htr] at hmain; exact hmain.1) hset x hx

/-!
Queue/waiter parity (invariant Q1 of the source comments): a facet's
wait queue is non-empty exactly when its wait flag is set.
-/

/-- `erts_proc_lock_init` (lines 1031-1049): a process lock starts with
all lock flags set (the creator counts as holding every lock) and all
queues empty. -/
def erts_proc_lock_init : ProcLock :=
  ⟨ERTS_PROC_LOCKS_ALL, fun _ => []⟩

/-- Invariant Q1: `queue[i]` non-null iff wait flag `i` set. -/
def QueueWaiterParity (lck : ProcLock) : Prop :=
  ∀ i, i < 5 → (lck.queue i ≠ [] ↔ lck.flags.testBit (i + 5) = true)

/-- Every waiter parked on queue `i` still needs facet `i` and no lower
one, and its needed mask is a lock mask (this is how `try_aquire` links
waiters: always on the lowest missing facet). -/
def QueueNeeds (lck : ProcLock) (uf : Nat → Nat) : Prop :=
  ∀ i, i < 5 → ∀ x, x ∈ lck.queue i →
    (uf x).testBit i = true ∧ (∀ j, j < i → (uf x).testBit j = false) ∧ uf x < 32

/-- Queues are duplicate-free and pairwise disjoint (invariant Q2: a
node is linked into at most one queue). -/
def QueuesDisjoint (lck : ProcLock) : Prop :=
  (∀ i, i < 5 → (lck.queue i).Nodup) ∧
  (∀ i j, i < 5 → j < 5 → i ≠ j → ∀ x, x ∈ lck.queue i → x ∉ lck.queue j)

/-- Bundled effects of one `try_aquire` call, as needed by the transfer
loop: other nodes' masks unchanged; the waiter's new mask is a submask;
either everything was acquired and no queue changed, or the waiter sits
at the tail of the queue of the lowest bit of its new mask and no other
queue changed; facets the waiter did not need keep their queue and wait
flag; and per-facet queue/waiter parity is preserved on needed facets. -/
theorem try_aquire_full (lck : ProcLock) (uf : Nat → Nat) (wtr : Nat)
    (tr : List Nat) (hlocks : uf wtr < 32) :
    (∀ x, x ≠ wtr → (try_aquire lck uf wtr tr).uf x = uf x) ∧
    ((try_aquire lck uf wtr tr).uf wtr < 32) ∧
    (∀ j, ((try_aquire lck uf wtr tr).uf wtr).testBit j = true →
      (uf wtr).testBit j = true) ∧
    (((try_aquire lck uf wtr tr).uf wtr = 0 ∧
        ∀ i, (try_aquire lck uf wtr tr).lck.queue i = lck.queue i) ∨
      (∃ lb, lb < 5 ∧ ((try_aquire lck uf wtr tr).uf wtr).testBit lb = true ∧
        (∀ j, j < lb → ((try_aquire lck uf wtr tr).uf wtr).testBit j = false) ∧
        (try_aquire lck uf wtr tr).lck.queue lb = lck.queue lb ++ [wtr] ∧
        (∀ i, i ≠ lb → (try_aquire lck uf wtr tr).lck.queue i = lck.queue i))) ∧
    (∀ i, i < 5 → (uf wtr).testBit i = false →
      (try_aquire lck uf wtr tr).lck.queue i = lck.queue i ∧
      (try_aquire lck uf wtr tr).lck.flags.testBit (i + 5) =
        lck.flags.testBit (i + 5)) ∧
    (∀ i, i < 5 → (uf wtr).testBit i = true →
      (lck.queue i ≠ [] ↔ lck.flags.testBit (i + 5) = true) →
      ((try_aquire lck uf wtr tr).lck.queue i ≠ [] ↔
        (try_aquire lck uf wtr tr).lck.flags.testBit (i + 5) = true)) := by
  obtain ⟨s, hs0, hs5, hC1, hC2, hC3, hC4, hC5⟩ :=
    try_aquire_go_spec wtr (uf wtr) hlocks (ERTS_PROC_LOCK_MAX_BIT + 1) 0 0 lck tr
      (by rw [ERTS_PROC_LOCK_MAX_BIT]) (by intro i; simp [Nat.zero_testBit])
  simp only [try_aquire, if_true, eq_self_iff_true]
  have hmiss : ∀ i,
      ((uf wtr) &&& (MASK32 ^^^
        (try_aquire_go wtr (uf wtr) (ERTS_PROC_LOCK_MAX_BIT + 1) 0 0 lck tr).got)).testBit i =
      ((uf wtr).testBit i &&
        !(try_aquire_go wtr (uf wtr) (ERTS_PROC_LOCK_MAX_BIT + 1) 0 0 lck tr).got.testBit i) := by
    intro i
    rcases Nat.lt_or_ge i 32 with hi | hi
    · rw [Nat.testBit_land, tb_xor_mask _ i hi]
    · rw [Nat.testBit_land, testBit_high_false hlocks (by omega)]
      simp
  have hgz : ∀ i, ((try_aquire_go wtr (uf wtr) (ERTS_PROC_LOCK_MAX_BIT + 1) 0 0 lck tr).got.testBit i &&
      !(0 : Nat).testBit i) =
      (try_aquire_go wtr (uf wtr) (ERTS_PROC_LOCK_MAX_BIT + 1) 0 0 lck tr).got.testBit i := by
    intro i
    rw [Nat.zero_testBit]
    simp
  refine ⟨?_, ?_, ?_, ?_, ?_, ?_⟩
  · intro x hx
    rw [if_neg hx]
  · have h := Nat.and_le_left (n := uf wtr)
      (m := MASK32 ^^^ (try_aquire_go wtr (uf wtr) (ERTS_PROC_LOCK_MAX_BIT + 1) 0 0 lck tr).got)
    omega
  · intro j hj
    rw [hmiss j, Bool.and_eq_true] at hj
    exact hj.1
  · rcases hC5 with ⟨hLa, hQa, hWa⟩ | ⟨hs5', hlks, hqs, hqo, hstop, hwn, hwe, hWb⟩
    · refine Or.inl ⟨?_, hQa⟩
      apply Nat.eq_of_testBit_eq
      intro i
      rw [hmiss i, hC1 i, Nat.zero_testBit]
      rcases Bool.eq_false_or_eq_true ((uf wtr).testBit i) with h | h
      · have hlt := hLa i h
        have e : decide (i < s) = true := by simp [hlt]
        rw [h, e]
        rfl
      · rw [h]
        rfl
    · refine Or.inr ⟨s, hs5', ?_, ?_, hqs, hqo⟩
      · rw [hmiss s, hC1 s]
        simp [hlks, Nat.lt_irrefl]
      · intro j hj
        rw [hmiss j, hC1 j]
        have e : decide (j < s) = true := by simp; omega
        rw [e, Bool.and_true, Bool.and_not_self]
  · intro i hi hnf
    have hA : ((try_aquire_go wtr (uf wtr) (ERTS_PROC_LOCK_MAX_BIT + 1) 0 0 lck tr).got.testBit i &&
        !(0 : Nat).testBit i) = false := by
      rw [hgz i, hC1 i, hnf]
      rfl
    rcases hC5 with ⟨hLa, hQa, hWa⟩ | ⟨hs5', hlks, hqs, hqo, hstop, hwn, hwe, hWb⟩
    · exact ⟨hQa i, hWa i hi hA⟩
    · have hne : i ≠ s := by
        intro hcon
        rw [hcon] at hnf
        rw [hnf] at hlks
        exact Bool.false_ne_true hlks
      exact ⟨hqo i hne, hWb i hi hA hne⟩
  · intro i hi hbt hp
    rcases Bool.eq_false_or_eq_true
        ((try_aquire_go wtr (uf wtr) (ERTS_PROC_LOCK_MAX_BIT + 1) 0 0 lck tr).got.testBit i)
        with hacq | hacq
    · -- facet acquired: queue was and stays empty, wait flag cleared.
      have hA : ((try_aquire_go wtr (uf wtr) (ERTS_PROC_LOCK_MAX_BIT + 1) 0 0 lck tr).got.testBit i &&
          !(0 : Nat).testBit i) = true := by
        rw [hgz i]
        exact hacq
      have h3 := hC3 i hA
      have h4 := hC4 i hi hA
      have hqeq : (try_aquire_go wtr (uf wtr) (ERTS_PROC_LOCK_MAX_BIT + 1) 0 0 lck tr).lck.queue i =
          lck.queue i := by
        rcases hC5 with ⟨_, hQa, _⟩ | ⟨hs5', hlks, hqs, hqo, _, _, _, _⟩
        · exact hQa i
        · have hne : i ≠ s := by
            intro hcon
            rw [hcon, hC1 s] at hacq
            simp [Nat.lt_irrefl] at hacq
          exact hqo i hne
      rw [hqeq, h3.1, h4]
      simp
    · have hA : ((try_aquire_go wtr (uf wtr) (ERTS_PROC_LOCK_MAX_BIT + 1) 0 0 lck tr).got.testBit i &&
          !(0 : Nat).testBit i) = false := by
        rw [hgz i]
        exact hacq
      rcases hC5 with ⟨_, hQa, hWa⟩ | ⟨hs5', hlks, hqs, hqo, hstop, hwn, hwe, hWb⟩
      · rw [hQa i, hWa i hi hA]
        exact hp
      · by_cases hcon : i = s
        · subst hcon
          rw [hqs]
          constructor
          · intro _
            rcases hql : lck.queue i with _ | ⟨w, ws⟩
            · exact hwe hql
            · rw [hwn (by rw [hql]; simp)]
              exact hp.mp (by rw [hql]; simp)
          · intro _
            simp
        · rw [hqo i hcon, hWb i hi hA hcon]
          exact hp

theorem transfer_locks_go_parity (trnsfr : Nat) :
    ∀ fuel lock_no (s : XferState), lock_no + fuel = 5 →
      (∀ i, i < 5 → s.unset_waiter.testBit i = false →
        (s.lck.queue i ≠ [] ↔ s.lck.flags.testBit (i + 5) = true)) →
      (∀ i, i < 5 → s.unset_waiter.testBit i = true →
        s.lck.queue i = [] ∧ s.lck.flags.testBit (i + 5) = true) →
      (∀ i, s.unset_waiter.testBit i = true → i < lock_no) →
      QueueNeeds s.lck s.uf → QueuesDisjoint s.lck →
      (∀ i, i < 5 →
        (transfer_locks_go trnsfr fuel lock_no s).unset_waiter.testBit i = false →
        ((transfer_locks_go trnsfr fuel lock_no s).lck.queue i ≠ [] ↔
          (transfer_locks_go trnsfr fuel lock_no s).lck.flags.testBit (i + 5) = true)) ∧
      (∀ i, i < 5 →
        (transfer_locks_go trnsfr fuel lock_no s).unset_waiter.testBit i = true →
        (transfer_locks_go trnsfr fuel lock_no s).lck.queue i = [] ∧
        (transfer_locks_go trnsfr fuel lock_no s).lck.flags.testBit (i + 5) = true) := by
  intro fuel
  induction fuel with
  | zero =>
    intro lock_no s hfuel hP1 hP2 hP3 hP4 hP5
    rw [transfer_locks_go]
    exact ⟨hP1, hP2⟩
  | succ fuel ih =>
    intro lock_no s hfuel hP1 hP2 hP3 hP4 hP5
    by_cases hbit : trnsfr &&& (1 <<< lock_no) ≠ 0
    · rw [transfer_locks_go, if_pos hbit]
      rcases hq : s.lck.queue lock_no with _ | ⟨wtr, ws⟩
      · have hdq : dequeue_waiter s.lck lock_no = none := by
          unfold dequeue_waiter
          rw [hq]
        rw [hdq]
        exact ih (lock_no+1) s (by omega) hP1 hP2 (fun i h => by
          have := hP3 i h
          omega) hP4 hP5
      · set lck1 : ProcLock :=
          ⟨s.lck.flags, fun i => if i = lock_no then ws else s.lck.queue i⟩ with hlck1
        have hdq : dequeue_waiter s.lck lock_no = some (wtr, lck1) := by
          unfold dequeue_waiter
          rw [hq]
        rw [hdq]
        dsimp only
        have hit1 : (if wtr = wtr then s.uf wtr &&& (MASK32 ^^^ 1 <<< lock_no)
            else s.uf wtr) = s.uf wtr &&& (MASK32 ^^^ 1 <<< lock_no) := if_pos rfl
        have hit2 : (if lock_no = lock_no then ws else s.lck.queue lock_no) = ws :=
          if_pos rfl
        rw [hit1, hit2]
        have hl1qs : lck1.queue lock_no = ws := by
          rw [hlck1]
          exact if_pos rfl
        have hl1qo : ∀ i, i ≠ lock_no → lck1.queue i = s.lck.queue i := by
          intro i hne
          rw [hlck1]
          exact if_neg hne
        have hwmem : wtr ∈ s.lck.queue lock_no := by
          rw [hq]
          exact List.mem_cons_self _ _
        have hln5 : lock_no < 5 := by omega
        have hneed := hP4 lock_no hln5 wtr hwmem
        have hub0 : s.unset_waiter.testBit lock_no = false := by
          rcases Bool.eq_false_or_eq_true (s.unset_waiter.testBit lock_no) with h | h
          · exact absurd (hP3 lock_no h) (Nat.lt_irrefl lock_no)
          · exact h
        have hwflag : s.lck.flags.testBit (lock_no + 5) = true :=
          (hP1 lock_no hln5 hub0).mp (by rw [hq]; simp)
        have hnodup_cons : (wtr :: ws).Nodup := by
          have h := hP5.1 lock_no hln5
          rw [hq] at h
          exact h
        have hwnotin_ws : wtr ∉ ws := (List.nodup_cons.mp hnodup_cons).1
        have hwnotin : ∀ j, j < 5 → j ≠ lock_no → wtr ∉ s.lck.queue j := by
          intro j hj5 hjne
          exact hP5.2 lock_no j hln5 hj5 (fun hc => hjne hc.symm) wtr hwmem
        have hwnotin1 : ∀ j, j < 5 → wtr ∉ lck1.queue j := by
          intro j hj5
          by_cases hje : j = lock_no
          · rw [hje, hl1qs]
            exact hwnotin_ws
          · rw [hl1qo j hje]
            exact hwnotin j hj5 hje
        have hLchar : ∀ j, (s.uf wtr &&& (MASK32 ^^^ 1 <<< lock_no)).testBit j =
            ((s.uf wtr).testBit j && !decide (lock_no = j)) := by
          intro j
          rcases Nat.lt_or_ge j 32 with hj | hj
          · rw [Nat.testBit_land, tb_xor_mask _ j hj, tb_shiftOne]
          · rw [Nat.testBit_land, testBit_high_false hneed.2.2 (by omega)]
            simp [testBit_high_false hneed.2.2 (show 5 ≤ j by omega)]
        have hLlow : ∀ j, j ≤ lock_no →
            (s.uf wtr &&& (MASK32 ^^^ 1 <<< lock_no)).testBit j = false := by
          intro j hj
          rw [hLchar j]
          rcases Nat.lt_or_ge j lock_no with h | h
          · rw [hneed.2.1 j h]
            rfl
          · have hd : decide (lock_no = j) = true := by simp; omega
            rw [hd]
            simp
        have hLlt : s.uf wtr &&& (MASK32 ^^^ 1 <<< lock_no) < 32 := by
          have h := Nat.and_le_left (n := s.uf wtr) (m := MASK32 ^^^ 1 <<< lock_no)
          omega
        have hsub : ∀ i, i < 5 → ∀ x, x ∈ lck1.queue i →
            x ∈ s.lck.queue i ∧ x ≠ wtr := by
          intro i hi x hx
          by_cases hie : i = lock_no
          · subst hie
            rw [hl1qs] at hx
            exact ⟨by rw [hq]; exact List.mem_cons_of_mem _ hx,
              fun hc => hwnotin_ws (hc ▸ hx)⟩
          · rw [hl1qo i hie] at hx
            exact ⟨hx, fun hc => hwnotin i hi hie (hc ▸ hx)⟩
        by_cases hu : s.uf wtr &&& (MASK32 ^^^ 1 <<< lock_no) ≠ 0
        · rw [if_pos hu]
          obtain ⟨hE1, hE2, hE3, hE4, hE5, hE6⟩ := try_aquire_full lck1
            (fun x => if x = wtr then s.uf wtr &&& (MASK32 ^^^ 1 <<< lock_no) else s.uf x)
            wtr s.tr (by simpa using hLlt)
          rw [hit1] at hE3 hE5 hE6
          have hufx : ∀ x, x ≠ wtr →
              (try_aquire lck1 (fun x => if x = wtr then
                s.uf wtr &&& (MASK32 ^^^ 1 <<< lock_no) else s.uf x) wtr s.tr).uf x =
              s.uf x := by
            intro x hne
            exact (hE1 x hne).trans (if_neg hne)
          have hP4T : QueueNeeds
              (try_aquire lck1 (fun x => if x = wtr then
                s.uf wtr &&& (MASK32 ^^^ 1 <<< lock_no) else s.uf x) wtr s.tr).lck
              (try_aquire lck1 (fun x => if x = wtr then
                s.uf wtr &&& (MASK32 ^^^ 1 <<< lock_no) else s.uf x) wtr s.tr).uf := by
            intro i hi x hx
            rcases hE4 with ⟨hM0, hQ0⟩ | ⟨lb, hlb5, hMlb, hMlow, hqlb, hqob⟩
            · rw [hQ0 i] at hx
              obtain ⟨hxs, hxne⟩ := hsub i hi x hx
              rw [hufx x hxne]
              exact hP4 i hi x hxs
            · by_cases hie2 : i = lb
              · subst hie2
                rw [hqlb] at hx
                rcases List.mem_append.mp hx with hx2 | hx2
                · obtain ⟨hxs, hxne⟩ := hsub i hi x hx2
                  rw [hufx x hxne]
                  exact hP4 i hi x hxs
                · have hxw : x = wtr := by simpa using hx2
                  subst hxw
                  exact ⟨hMlb, hMlow, hE2⟩
              · rw [hqob i hie2] at hx
                obtain ⟨hxs, hxne⟩ := hsub i hi x hx
                rw [hufx x hxne]
                exact hP4 i hi x hxs
          have hP5T : QueuesDisjoint
              (try_aquire lck1 (fun x => if x = wtr then
                s.uf wtr &&& (MASK32 ^^^ 1 <<< lock_no) else s.uf x) wtr s.tr).lck := by
            have hnd1 : ∀ i, i < 5 → (lck1.queue i).Nodup := by
              intro i hi
              by_cases hie : i = lock_no
              · rw [hie, hl1qs]
                exact (List.nodup_cons.mp hnodup_cons).2
              · rw [hl1qo i hie]
                exact hP5.1 i hi
            have hdis1 : ∀ i j, i < 5 → j < 5 → i ≠ j → ∀ x,
                x ∈ lck1.queue i → x ∉ lck1.queue j := by
              intro i j hi hj hne x hxi hxj
              obtain ⟨hxs, _⟩ := hsub i hi x hxi
              obtain ⟨hxs2, _⟩ := hsub j hj x hxj
              exact hP5.2 i j hi hj hne x hxs hxs2
            rcases hE4 with ⟨hM0, hQ0⟩ | ⟨lb, hlb5, hMlb, hMlow, hqlb, hqob⟩
            · refine ⟨?_, ?_⟩
              · intro i hi
                rw [hQ0 i]
                exact hnd1 i hi
              · intro i j hi hj hne x hxi
                rw [hQ0 i] at hxi
                rw [hQ0 j]
                exact hdis1 i j hi hj hne x hxi
            · have hTmem : ∀ k, k < 5 → ∀ y,
                  y ∈ (try_aquire lck1 (fun x => if x = wtr then
                    s.uf wtr &&& (MASK32 ^^^ 1 <<< lock_no) else s.uf x) wtr s.tr).lck.queue k →
                  y ∈ lck1.queue k ∨ (y = wtr ∧ k = lb) := by
                intro k hk y hy
                by_cases hke : k = lb
                · subst hke
                  rw [hqlb] at hy
                  rcases List.mem_append.mp hy with h2 | h2
                  · exact Or.inl h2
                  · exact Or.inr ⟨by simpa using h2, rfl⟩
                · rw [hqob k hke] at hy
                  exact Or.inl hy
              refine ⟨?_, ?_⟩
              · intro i hi
                by_cases hie : i = lb
                · subst hie
                  rw [hqlb, List.nodup_append]
                  refine ⟨hnd1 i hi, List.nodup_singleton wtr, ?_⟩
                  rw [List.disjoint_left]
                  intro a ha hma
                  have haw : a = wtr := by simpa using hma
                  subst haw
                  exact hwnotin1 i hi ha
                · rw [hqob i hie]
                  exact hnd1 i hi
              · intro i j hi hj hne x hxi hxj
                rcases hTmem i hi x hxi with h1 | ⟨hw1, hl1⟩
                · rcases hTmem j hj x hxj with h2 | ⟨hw2, hl2⟩
                  · exact hdis1 i j hi hj hne x h1 h2
                  · exact hwnotin1 i hi (hw2 ▸ h1)
                · rcases hTmem j hj x hxj with h2 | ⟨_, hl2⟩
                  · exact hwnotin1 j hj (hw1 ▸ h2)
                  · exact hne (hl1.trans hl2.symm)
          have hP1q : ∀ i, i < 5 → i ≠ lock_no → s.unset_waiter.testBit i = false →
              ((try_aquire lck1 (fun x => if x = wtr then
                  s.uf wtr &&& (MASK32 ^^^ 1 <<< lock_no) else s.uf x) wtr s.tr).lck.queue i ≠ [] ↔
                (try_aquire lck1 (fun x => if x = wtr then
                  s.uf wtr &&& (MASK32 ^^^ 1 <<< lock_no) else s.uf x) wtr s.tr).lck.flags.testBit (i + 5) = true) := by
            intro i hi hine hf
            rcases Bool.eq_false_or_eq_true
                ((s.uf wtr &&& (MASK32 ^^^ 1 <<< lock_no)).testBit i) with hLi | hLi
            · refine hE6 i hi hLi ?_
              rw [hl1qo i hine]
              exact hP1 i hi hf
            · obtain ⟨hq5, hw5⟩ := hE5 i hi hLi
              rw [hq5, hw5, hl1qo i hine]
              exact hP1 i hi hf
          have hP2q : ∀ i, i < 5 → i ≠ lock_no → s.unset_waiter.testBit i = true →
              (try_aquire lck1 (fun x => if x = wtr then
                  s.uf wtr &&& (MASK32 ^^^ 1 <<< lock_no) else s.uf x) wtr s.tr).lck.queue i = [] ∧
              (try_aquire lck1 (fun x => if x = wtr then
                  s.uf wtr &&& (MASK32 ^^^ 1 <<< lock_no) else s.uf x) wtr s.tr).lck.flags.testBit (i + 5) = true := by
            intro i hi hine ht
            have hilt : i < lock_no := hP3 i ht
            obtain ⟨hq5, hw5⟩ := hE5 i hi (hLlow i (by omega))
            rw [hq5, hw5, hl1qo i hine]
            exact hP2 i hi ht
          have hPlockq : (try_aquire lck1 (fun x => if x = wtr then
                s.uf wtr &&& (MASK32 ^^^ 1 <<< lock_no) else s.uf x) wtr s.tr).lck.queue lock_no = ws ∧
              (try_aquire lck1 (fun x => if x = wtr then
                s.uf wtr &&& (MASK32 ^^^ 1 <<< lock_no) else s.uf x) wtr s.tr).lck.flags.testBit (lock_no + 5) = true := by
            obtain ⟨hq5, hw5⟩ := hE5 lock_no hln5 (hLlow lock_no (le_refl lock_no))
            rw [hq5, hw5, hl1qs]
            exact ⟨rfl, hwflag⟩
          by_cases hws : ws = []
          · rw [if_pos hws]
            apply ih (lock_no + 1)
            · omega
            · intro i hi hf
              dsimp only at hf ⊢
              simp only [Nat.testBit_lor, tb_shiftOne] at hf
              rcases Bool.eq_false_or_eq_true (decide (lock_no = i)) with hd | hd
              · exact absurd hf (by rw [hd]; simp)
              · rw [hd, Bool.or_false] at hf
                have hine : i ≠ lock_no := by
                  intro hc
                  rw [hc] at hd
                  simp at hd
                exact hP1q i hi hine hf
            · intro i hi ht
              dsimp only at ht ⊢
              by_cases hieq : i = lock_no
              · subst hieq
                rw [hPlockq.1, hws]
                exact ⟨rfl, hPlockq.2⟩
              · have hsu : s.unset_waiter.testBit i = true := by
                  rw [Nat.testBit_lor, tb_shiftOne] at ht
                  have hd : decide (lock_no = i) = false := by simp; omega
                  rw [hd, Bool.or_false] at ht
                  exact ht
                exact hP2q i hi hieq hsu
            · intro i ht
              dsimp only at ht
              rw [Nat.testBit_lor, tb_shiftOne] at ht
              rcases (Bool.or_eq_true _ _).mp ht with h | h
              · have := hP3 i h
                omega
              · have := of_decide_eq_true h
                omega
            · exact hP4T
            · exact hP5T
          · rw [if_neg hws]
            apply ih (lock_no + 1)
            · omega
            · intro i hi hf
              dsimp only at hf ⊢
              by_cases hieq : i = lock_no
              · subst hieq
                rw [hPlockq.1, hPlockq.2]
                simp [hws]
              · exact hP1q i hi hieq hf
            · intro i hi ht
              dsimp only at ht ⊢
              have hine : i ≠ lock_no := by
                intro hc
                rw [hc, hub0] at ht
                exact Bool.false_ne_true ht
              exact hP2q i hi hine ht
            · intro i ht
              dsimp only at ht
              have := hP3 i ht
              omega
            · exact hP4T
            · exact hP5T
        · rw [if_neg hu]
          dsimp only
          rw [hit1]
          have hL0 : s.uf wtr &&& (MASK32 ^^^ 1 <<< lock_no) = 0 := by
            by_contra hc
            exact hu hc
          have hufx2 : ∀ x, x ≠ wtr →
              (fun x => if x = wtr then s.uf wtr &&& (MASK32 ^^^ 1 <<< lock_no)
                else s.uf x) x = s.uf x := by
            intro x hne
            exact if_neg hne
          have hP4n : QueueNeeds lck1 (fun x => if x = wtr then
              s.uf wtr &&& (MASK32 ^^^ 1 <<< lock_no) else s.uf x) := by
            intro i hi x hx
            obtain ⟨hxs, hxne⟩ := hsub i hi x hx
            rw [hufx2 x hxne]
            exact hP4 i hi x hxs
          have hP5n : QueuesDisjoint lck1 := by
            refine ⟨?_, ?_⟩
            · intro i hi
              by_cases hie : i = lock_no
              · rw [hie, hl1qs]
                exact (List.nodup_cons.mp hnodup_cons).2
              · rw [hl1qo i hie]
                exact hP5.1 i hi
            · intro i j hi hj hne x hxi hxj
              obtain ⟨hxs, _⟩ := hsub i hi x hxi
              obtain ⟨hxs2, _⟩ := hsub j hj x hxj
              exact hP5.2 i j hi hj hne x hxs hxs2
          by_cases hws : ws = []
          · rw [if_pos hws]
            apply ih (lock_no + 1)
            · omega
            · intro i hi hf
              dsimp only at hf ⊢
              simp only [Nat.testBit_lor, tb_shiftOne] at hf
              rcases Bool.eq_false_or_eq_true (decide (lock_no = i)) with hd | hd
              · exact absurd hf (by rw [hd]; simp)
              · rw [hd, Bool.or_false] at hf
                have hine : i ≠ lock_no := by
                  intro hc
                  rw [hc] at hd
                  simp at hd
                rw [if_neg hine]
                exact hP1 i hi hf
            · intro i hi ht
              dsimp only at ht ⊢
              by_cases hieq : i = lock_no
              · subst hieq
                rw [hit2, hws]
                exact ⟨rfl, hwflag⟩
              · have hsu : s.unset_waiter.testBit i = true := by
                  rw [Nat.testBit_lor, tb_shiftOne] at ht
                  have hd : decide (lock_no = i) = false := by simp; omega
                  rw [hd, Bool.or_false] at ht
                  exact ht
                rw [if_neg hieq]
                exact hP2 i hi hsu
            · intro i ht
              dsimp only at ht
              rw [Nat.testBit_lor, tb_shiftOne] at ht
              rcases (Bool.or_eq_true _ _).mp ht with h | h
              · have := hP3 i h
                omega
              · have := of_decide_eq_true h
                omega
            · exact hP4n
            · exact hP5n
          · rw [if_neg hws]
            apply ih (lock_no + 1)
            · omega
            · intro i hi hf
              dsimp only at hf ⊢
              by_cases hieq : i = lock_no
              · subst hieq
                rw [hit2]
                simp [hws, hwflag]
              · rw [if_neg hieq]
                exact hP1 i hi hf
            · intro i hi ht
              dsimp only at ht ⊢
              have hine : i ≠ lock_no := by
                intro hc
                rw [hc, hub0] at ht
                exact Bool.false_ne_true ht
              rw [if_neg hine]
              exact hP2 i hi ht
            · intro i ht
              dsimp only at ht
              have := hP3 i ht
              omega
            · exact hP4n
            · exact hP5n
    · rw [transfer_locks_go, if_neg hbit]
      exact ih (lock_no+1) s (by omega) hP1 hP2 (fun i h => by
        have := hP3 i h
        omega) hP4 hP5

theorem transfer_final_parity (s1 : XferState)
    (hQ1 : ∀ i, i < 5 → s1.unset_waiter.testBit i = false →
      (s1.lck.queue i ≠ [] ↔ s1.lck.flags.testBit (i + 5) = true))
    (hQ2 : ∀ i, i < 5 → s1.unset_waiter.testBit i = true →
      s1.lck.queue i = [] ∧ s1.lck.flags.testBit (i + 5) = true) :
    QueueWaiterParity
      ⟨s1.lck.flags &&& (MASK32 ^^^ (s1.unset_waiter <<< ERTS_PROC_LOCK_WAITER_SHIFT)),
        s1.lck.queue⟩ := by
  intro i hi
  show s1.lck.queue i ≠ [] ↔
    (s1.lck.flags &&& (MASK32 ^^^
      (s1.unset_waiter <<< ERTS_PROC_LOCK_WAITER_SHIFT))).testBit (i + 5) = true
  have hXb : (s1.unset_waiter <<< ERTS_PROC_LOCK_WAITER_SHIFT).testBit (i + 5) =
      s1.unset_waiter.testBit i := by
    rw [ERTS_PROC_LOCK_WAITER_SHIFT, Nat.testBit_shiftLeft]
    have h5 : decide (i + 5 ≥ 5) = true := by simp
    rw [h5, Bool.true_and]
    congr 1
  have hF : (s1.lck.flags &&& (MASK32 ^^^
      (s1.unset_waiter <<< ERTS_PROC_LOCK_WAITER_SHIFT))).testBit (i + 5) =
      (s1.lck.flags.testBit (i + 5) && !s1.unset_waiter.testBit i) := by
    rw [Nat.testBit_land, tb_xor_mask _ _ (by omega), hXb]
  rcases Bool.eq_false_or_eq_true (s1.unset_waiter.testBit i) with hui | hui
  · obtain ⟨hqe, _⟩ := hQ2 i hi hui
    rw [hqe, hF, hui]
    simp
  · rw [hF, hui]
    simp only [Bool.not_false, Bool.and_true]
    exact hQ1 i hi hui

/-- C6: queue/waiter parity.  For every facet of a process the wait
queue is non-empty exactly when the wait flag is set in the flag word:
the invariant holds right after `erts_proc_lock_init` (all queues null,
no wait flag set), it is preserved by `try_aquire` (which clears the
transient wait flag whenever it acquires a lock whose queue is empty),
and it is preserved by `transfer_locks` (which clears, in its final
`BAND`, the wait flag of every facet whose queue it drained), the
latter under the queue well-formedness invariants (waiters parked on
the queue of their lowest missing facet with lock-mask needs, queues
duplicate-free and pairwise disjoint). -/
theorem queue_waiter_parity_invariant :
    QueueWaiterParity erts_proc_lock_init ∧
    (∀ lck uf wtr tr, uf wtr < 32 → QueueWaiterParity lck →
      QueueWaiterParity (try_aquire lck uf wtr tr).lck) ∧
    (∀ lck uf trnsfr, QueueWaiterParity lck → QueueNeeds lck uf →
      QueuesDisjoint lck →
      QueueWaiterParity (transfer_locks lck uf trnsfr).lck) := by
  refine ⟨by unfold QueueWaiterParity erts_proc_lock_init; decide, ?_, ?_⟩
  · intro lck uf wtr tr hlocks hpar
    obtain ⟨hE1, hE2, hE3, hE4, hE5, hE6⟩ := try_aquire_full lck uf wtr tr hlocks
    intro i hi
    rcases Bool.eq_false_or_eq_true ((uf wtr).testBit i) with hL | hL
    · exact hE6 i hi hL (hpar i hi)
    · obtain ⟨hq5, hw5⟩ := hE5 i hi hL
      rw [hq5, hw5]
      exact hpar i hi
  · intro lck uf trnsfr hpar hneeds hdisj
    obtain ⟨hQ1, hQ2⟩ := transfer_locks_go_parity trnsfr (ERTS_PROC_LOCK_MAX_BIT + 1) 0
      ⟨lck, uf, 0, [], 0, [lck.flags]⟩ (by rw [ERTS_PROC_LOCK_MAX_BIT])
      (fun i hi _ => hpar i hi)
      (fun i hi ht => absurd (by rw [Nat.zero_testBit] at ht; exact ht) Bool.false_ne_true)
      (fun i ht => absurd (by rw [Nat.zero_testBit] at ht; exact ht) Bool.false_ne_true)
      hneeds hdisj
    rw [transfer_locks]
    by_cases hz : (transfer_locks_go trnsfr (ERTS_PROC_LOCK_MAX_BIT + 1) 0
        ⟨lck, uf, 0, [], 0, [lck.flags]⟩).unset_waiter ≠ 0
    · rw [if_pos hz]
      exact transfer_final_parity
        (transfer_locks_go trnsfr (ERTS_PROC_LOCK_MAX_BIT + 1) 0
          ⟨lck, uf, 0, [], 0, [lck.flags]⟩) hQ1 hQ2
    · rw [if_neg hz]
      have hz0 : (transfer_locks_go trnsfr (ERTS_PROC_LOCK_MAX_BIT + 1) 0
          ⟨lck, uf, 0, [], 0, [lck.flags]⟩).unset_waiter = 0 := by
        by_contra hc
        exact hz hc
      intro i hi
      exact hQ1 i hi (by rw [hz0]; exact Nat.zero_testBit i)

/-- C6 witness: one parked waiter (node 9, needing facet 0) on a
process whose facet 0 is held with its wait flag set; releasing facet 0
through `transfer_locks` hands the lock over, drains the queue, clears
the wait flag — and parity holds again afterwards. -/
theorem queue_waiter_parity_invariant_witness :
    QueueWaiterParity (transfer_locks
      ⟨33, fun i => if i = 0 then [9] else []⟩
      (fun x => if x = 9 then 1 else 0) 1).lck :=
  queue_waiter_parity_invariant.2.2
    ⟨33, fun i => if i = 0 then [9] else []⟩
    (fun x => if x = 9 then 1 else 0) 1
    (by unfold QueueWaiterParity; decide)
    (by unfold QueueNeeds; decide)
    (by
      constructor
      · intro i hi
        by_cases h : i = 0 <;> simp [h]
      · intro i j hi hj hne x hxi hxj
        by_cases h : i = 0
        · subst h
          have hj0 : j ≠ 0 := fun hc => hne hc.symm
          simp [hj0] at hxj
        · simp [h] at hxi)

/-!
`proc_safelock` (lines 580-804): lock two processes' locks without
deadlock, by canonicalising the pair by process id, releasing the
already-held locks that stand in the way, and re-acquiring everything
in lock order.  The calls to `erts_proc_lock` / `erts_proc_unlock`
(header collaborators, not part of the sources) are modelled as
recorded events next to the have/need mask bookkeeping the function
itself performs; the reference-count management for unmanaged threads
(`is_managed`, `refc1`, `refc2`) only touches the external refcount
collaborator and is not modelled.
-/

inductive SEvent where
  | lockEv (pid : Nat) (locks : Nat)
  | unlockEv (pid : Nat) (locks : Nat)
deriving DecidableEq

/-- Canonicalised view of the two processes (lines 600-666): `p1` is
the process with the smaller id; equal ids merge both mask pairs onto
`p1` and leave `p2` absent. -/
structure Canon where
  p1 : Nat
  p2 : Option Nat
  need1 : Nat
  have1 : Nat
  need2 : Nat
  have2 : Nat
deriving DecidableEq

def safelock_canon (a_proc : Option Nat) (a_have_locks a_need_locks : Nat)
    (b_proc : Nat) (b_have_locks b_need_locks : Nat) : Canon :=
  match a_proc with
  | some a =>
    if a < b_proc then
      ⟨a, some b_proc, a_need_locks, a_have_locks, b_need_locks, b_have_locks⟩
    else if b_proc < a then
      ⟨b_proc, some a, b_need_locks, b_have_locks, a_need_locks, a_have_locks⟩
    else
      ⟨a, none, a_need_locks ||| b_need_locks, a_have_locks ||| b_have_locks, 0, 0⟩
  | none => ⟨b_proc, none, b_need_locks, b_have_locks, 0, 0⟩

/-- The unlock-mask loop (lines 687-698): starting from
`ERTS_PROC_LOCKS_ALL`, walk the lock bits upward, clearing each bit
from the mask until a bit needed on `p1` is found (kept in the mask) or
a bit needed only on `p2` is found (cleared from the mask); returns the
mask together with the final `lock_no` (the first lock to lock on
either process). -/
def unlock_mask_go (need_locks1 need_locks2 : Nat) : Nat → Nat → Nat → Nat × Nat
  | 0, lock_no, mask => (mask, lock_no)
  | fuel+1, lock_no, mask =>
    let lock : Nat := 1 <<< lock_no
    if need_locks1 &&& lock ≠ 0 then (mask, lock_no)
    else
      let mask1 := mask &&& (MASK32 ^^^ lock)
      if need_locks2 &&& lock ≠ 0 then (mask1, lock_no)
      else unlock_mask_go need_locks1 need_locks2 fuel (lock_no + 1) mask1

/-- Inner do-while of the first branch of the locking loop (lines
744-750): grow the run while the bit is not needed on `p2`; returns the
incremented `lock_no`, the last bit looked at and the accumulated
mask. -/
def run1_go (need_locks2 : Nat) : Nat → Nat → Nat → Nat × Nat × Nat
  | 0, lock_no, lock_mask => (lock_no, 0, lock_mask)
  | fuel+1, lock_no, lock_mask =>
    let lock : Nat := 1 <<< lock_no
    let lock_no1 := lock_no + 1
    let lock_mask1 := lock_mask ||| lock
    if lock_no1 ≤ ERTS_PROC_LOCK_MAX_BIT ∧ need_locks2 &&& lock = 0 then
      run1_go need_locks2 fuel lock_no1 lock_mask1
    else (lock_no1, lock, lock_mask1)

/-- Inner while of the second branch of the locking loop (lines
757-761): grow the run while the bit is not needed on `p1`. -/
def run2_go (need_locks1 : Nat) : Nat → Nat → Nat → Nat × Nat
  | 0, lock_no, lock_mask => (lock_no, lock_mask)
  | fuel+1, lock_no, lock_mask =>
    let lock : Nat := 1 <<< lock_no
    if lock_no ≤ ERTS_PROC_LOCK_MAX_BIT ∧ need_locks1 &&& lock = 0 then
      run2_go need_locks1 fuel (lock_no + 1) (lock_mask ||| lock)
    else (lock_no, lock_mask)

/-- State of the locking loop: the remaining needed masks, the masks
held so far, and the acquisition runs performed (`true` = a
`erts_proc_lock(p1, locks)` call, `false` = one on `p2`). -/
structure LockLoopSt where
  need1 : Nat
  need2 : Nat
  have1 : Nat
  have2 : Nat
  runs : List (Bool × Nat)
deriving DecidableEq

/-- The locking loop of `proc_safelock` (lines 739-769): walk the bits
upward; a bit needed on `p1` starts a run extended until a bit needed
on `p2` (backing `lock_no` up if that bit is also needed on `p1`), then
the run's needed bits are locked on `p1` in one call; symmetrically for
`p2`; other bits are skipped.  16 units of fuel bound the at most
2 iterations per bit plus the final exit test. -/
def safelock_lock_loop : Nat → Nat → LockLoopSt → LockLoopSt
  | 0, _, st => st
  | fuel+1, lock_no, st =>
    if lock_no ≤ ERTS_PROC_LOCK_MAX_BIT then
      let lock : Nat := 1 <<< lock_no
      if st.need1 &&& lock ≠ 0 then
        let r := run1_go st.need2 6 lock_no 0
        let lock_no1 := if st.need2 &&& r.2.1 ≠ 0 then r.1 - 1 else r.1
        let locks := st.need1 &&& r.2.2
        safelock_lock_loop fuel lock_no1
          { st with need1 := st.need1 &&& (MASK32 ^^^ locks),
                    have1 := st.have1 ||| locks,
                    runs := st.runs ++ [(true, locks)] }
      else if st.need2 &&& lock ≠ 0 then
        let r := run2_go st.need1 6 lock_no 0
        let locks := st.need2 &&& r.2
        safelock_lock_loop fuel r.1
          { st with need2 := st.need2 &&& (MASK32 ^^^ locks),
                    have2 := st.have2 ||| locks,
                    runs := st.runs ++ [(false, locks)] }
      else safelock_lock_loop fuel (lock_no + 1) st
    else st

structure SafelockRes where
  p1 : Nat
  p2 : Option Nat
  have1 : Nat
  have2 : Nat
  runs : List (Bool × Nat)
  events : List SEvent
deriving DecidableEq

/-- Body of `proc_safelock` after canonicalisation (lines 684-803):
reduce the needed masks by the held masks, compute the unlock mask,
release the held locks inside it (adding them back to the needed
masks), then lock everything in lock order.  The source's outer
`if (have_locks1 || have_locks2)` is subsumed by the two inner
`if (unlock_locks)` tests (`unlock_locks` is zero when both held masks
are). -/
def safelock_rest (p1 : Nat) (p2 : Option Nat)
    (need_locks1 have_locks1 need_locks2 have_locks2 : Nat) : SafelockRes :=
  let need1 := need_locks1 &&& (MASK32 ^^^ have_locks1)
  let need2 := need_locks2 &&& (MASK32 ^^^ have_locks2)
  let um := unlock_mask_go need1 need2 5 0 ERTS_PROC_LOCKS_ALL
  let ul1 := um.1 &&& have_locks1
  let ul2 := um.1 &&& have_locks2
  let have1 := if ul1 ≠ 0 then have_locks1 &&& (MASK32 ^^^ ul1) else have_locks1
  let need1b := if ul1 ≠ 0 then need1 ||| ul1 else need1
  let have2 := if ul2 ≠ 0 then have_locks2 &&& (MASK32 ^^^ ul2) else have_locks2
  let need2b := if ul2 ≠ 0 then need2 ||| ul2 else need2
  let ev1 : List SEvent := if ul1 ≠ 0 then [SEvent.unlockEv p1 ul1] else []
  let ev2 : List SEvent := if ul2 ≠ 0 then [SEvent.unlockEv (p2.getD p1) ul2] else []
  let st := safelock_lock_loop 16 um.2 ⟨need1b, need2b, have1, have2, []⟩
  ⟨p1, p2, st.have1, st.have2, st.runs,
    ev1 ++ ev2 ++ st.runs.map (fun x =>
      SEvent.lockEv (if x.1 then p1 else p2.getD p1) x.2)⟩

/-- `proc_safelock` (lines 580-804). -/
def proc_safelock (a_proc : Option Nat) (a_have_locks a_need_locks : Nat)
    (b_proc : Nat) (b_have_locks b_need_locks : Nat) : SafelockRes :=
  let c := safelock_canon a_proc a_have_locks a_need_locks
    b_proc b_have_locks b_need_locks
  safelock_rest c.p1 c.p2 c.need1 c.have1 c.need2 c.have2

/-- The lock-checker test from lines 674-680: the call is flagged as a
contract violation when a held mask is not a submask of the
corresponding needed mask. -/
def safelock_lc_violation (need_locks have_locks : Nat) : Bool :=
  decide (need_locks &&& have_locks ≠ have_locks)

/-- Modelled from the spec (wording of the C1 claim, for comparison
with the source's `unlock_mask`): the set of all facets strictly below
the lowest facet that either actor still needs (empty when nothing is
needed). -/
def spec_unlock_mask (need_locks1 need_locks2 : Nat) : Nat :=
  if need_locks1 ||| need_locks2 = 0 then 0
  else (2 ^ lowestSetBit (need_locks1 ||| need_locks2) - 1) &&& ERTS_PROC_LOCKS_ALL

/-- Runs alternate between the two processes. -/
def runsAlternate (rs : List (Bool × Nat)) : Prop :=
  List.Chain' (fun x y => x.1 ≠ y.1) rs

/-- Global acquisition order: every facet of the earlier run comes
strictly before every facet of the later run in the order `facet
first, then p1 before p2`. -/
def posLt (x y : Bool × Nat) : Prop :=
  ∀ i, i < 5 → ∀ j, j < 5 → x.2.testBit i = true → y.2.testBit j = true →
    2 * i + (if x.1 then 0 else 1) < 2 * j + (if y.1 then 0 else 1)

def runsAscending (rs : List (Bool × Nat)) : Prop := List.Chain' posLt rs

/-- Union of the lock masks acquired on one side. -/
def runsUnion (who : Bool) (rs : List (Bool × Nat)) : Nat :=
  rs.foldr (fun x acc => if x.1 = who then x.2 ||| acc else acc) 0

/-- Executable adjacent-pairs check, used to settle the locking-loop
properties on the bounded 5-bit domain by evaluation. -/
def chainb (p : Bool × Nat → Bool × Nat → Bool) : List (Bool × Nat) → Bool
  | [] => true
  | [_] => true
  | x :: y :: t => p x y && chainb p (y :: t)

theorem chainb_iff (p : Bool × Nat → Bool × Nat → Bool) :
    ∀ rs, chainb p rs = true ↔ List.Chain' (fun x y => p x y = true) rs
  | [] => by simp [chainb]
  | [x] => by simp [chainb]
  | x :: y :: t => by
    rw [chainb, List.chain'_cons, Bool.and_eq_true, chainb_iff p (y :: t)]

/-- The acquisition positions of a run, as a list. -/
def posList (x : Bool × Nat) : List Nat :=
  ((List.range 5).filter (fun i => x.2.testBit i)).map
    (fun i => 2 * i + (if x.1 then 0 else 1))

def posLtb (x y : Bool × Nat) : Bool :=
  (posList x).all fun a => (posList y).all fun b => a < b

theorem posLtb_iff (x y : Bool × Nat) : posLtb x y = true ↔ posLt x y := by
  rw [posLtb, List.all_eq_true, posLt]
  constructor
  · intro h i hi j hj hxi hyj
    have hmx : 2 * i + (if x.1 then 0 else 1) ∈ posList x := by
      rw [posList]
      exact List.mem_map.mpr ⟨i, List.mem_filter.mpr
        ⟨List.mem_range.mpr hi, by rw [hxi]⟩, rfl⟩
    have hmy : 2 * j + (if y.1 then 0 else 1) ∈ posList y := by
      rw [posList]
      exact List.mem_map.mpr ⟨j, List.mem_filter.mpr
        ⟨List.mem_range.mpr hj, by rw [hyj]⟩, rfl⟩
    have h2 := h _ hmx
    rw [List.all_eq_true] at h2
    exact of_decide_eq_true (h2 _ hmy)
  · intro h a ha
    rw [List.all_eq_true]
    intro b hb
    rw [posList] at ha hb
    rcases List.mem_map.mp ha with ⟨i, hif, rfl⟩
    rcases List.mem_map.mp hb with ⟨j, hjf, rfl⟩
    rcases List.mem_filter.mp hif with ⟨hir, hib⟩
    rcases List.mem_filter.mp hjf with ⟨hjr, hjb⟩
    exact decide_eq_true
      (h i (List.mem_range.mp hir) j (List.mem_range.mp hjr) hib hjb)

def runsAlternateb (rs : List (Bool × Nat)) : Bool :=
  chainb (fun x y => x.1 != y.1) rs

def runsAscendingb (rs : List (Bool × Nat)) : Bool := chainb posLtb rs

theorem runsAlternateb_iff (rs : List (Bool × Nat)) :
    runsAlternateb rs = true ↔ runsAlternate rs := by
  rw [runsAlternateb, chainb_iff, runsAlternate]
  exact ⟨List.Chain'.imp fun a b h => bne_iff_ne.mp h,
         List.Chain'.imp fun a b h => bne_iff_ne.mpr h⟩

theorem runsAscendingb_iff (rs : List (Bool × Nat)) :
    runsAscendingb rs = true ↔ runsAscending rs := by
  rw [runsAscendingb, chainb_iff, runsAscending]
  exact ⟨List.Chain'.imp fun a b h => (posLtb_iff a b).mp h,
         List.Chain'.imp fun a b h => (posLtb_iff a b).mpr h⟩

/-- Bundled executable check of the locking-loop postconditions from a
state with nothing held and no runs yet. -/
def lockLoopOKSt (n1 n2 : Nat) (st : LockLoopSt) : Bool :=
  st.need1 == 0 && (st.need2 == 0) && (st.have1 == n1) && (st.have2 == n2) &&
  runsAlternateb st.runs && runsAscendingb st.runs &&
  st.runs.all (fun x => x.2 != 0) &&
  (runsUnion true st.runs == n1) && (runsUnion false st.runs == n2)

def lockLoopOK (ln n1 n2 : Nat) : Bool :=
  ((n1 ||| n2) &&& (2 ^ ln - 1) != 0) ||
  lockLoopOKSt n1 n2 (safelock_lock_loop 16 ln ⟨n1, n2, 0, 0, []⟩)

set_option maxHeartbeats 4000000 in
theorem lockLoopOK_all :
    ((List.range 6).all fun ln => (List.range 32).all fun n1 =>
      (List.range 32).all fun n2 => lockLoopOK ln n1 n2) = true := by rfl

/-- Exhaustive characterisation of the unlock-mask loop on the 5-bit
domain: the mask keeps exactly the bits from the final `lock_no`
upward — including `lock_no` itself iff it is needed on `p1` — and
both needed masks are empty below the final `lock_no`. -/
theorem unlock_mask_go_spec : ∀ n1 < 32, ∀ n2 < 32,
    (unlock_mask_go n1 n2 5 0 ERTS_PROC_LOCKS_ALL).1 < 32 ∧
    (unlock_mask_go n1 n2 5 0 ERTS_PROC_LOCKS_ALL).2 ≤ 5 ∧
    (∀ j, j < (unlock_mask_go n1 n2 5 0 ERTS_PROC_LOCKS_ALL).2 →
      n1.testBit j = false ∧ n2.testBit j = false) ∧
    (∀ i, i < 5 → (unlock_mask_go n1 n2 5 0 ERTS_PROC_LOCKS_ALL).1.testBit i =
      (decide ((unlock_mask_go n1 n2 5 0 ERTS_PROC_LOCKS_ALL).2 ≤ i) &&
        (n1.testBit (unlock_mask_go n1 n2 5 0 ERTS_PROC_LOCKS_ALL).2 ||
          decide ((unlock_mask_go n1 n2 5 0 ERTS_PROC_LOCKS_ALL).2 < i)))) ∧
    (5 ≤ (unlock_mask_go n1 n2 5 0 ERTS_PROC_LOCKS_ALL).2 ∨
      (n1.testBit (unlock_mask_go n1 n2 5 0 ERTS_PROC_LOCKS_ALL).2 ||
        n2.testBit (unlock_mask_go n1 n2 5 0 ERTS_PROC_LOCKS_ALL).2) = true) := by
  decide

/-- The locking loop only ever extends the held masks and the run list:
the runs and acquisitions from an arbitrary start state are those from
the empty start state, appended. -/
theorem safelock_lock_loop_acc : ∀ fuel ln n1 n2 h1 h2 r0,
    safelock_lock_loop fuel ln ⟨n1, n2, h1, h2, r0⟩ =
      ⟨(safelock_lock_loop fuel ln ⟨n1, n2, 0, 0, []⟩).need1,
       (safelock_lock_loop fuel ln ⟨n1, n2, 0, 0, []⟩).need2,
       h1 ||| (safelock_lock_loop fuel ln ⟨n1, n2, 0, 0, []⟩).have1,
       h2 ||| (safelock_lock_loop fuel ln ⟨n1, n2, 0, 0, []⟩).have2,
       r0 ++ (safelock_lock_loop fuel ln ⟨n1, n2, 0, 0, []⟩).runs⟩ := by
  intro fuel
  induction fuel with
  | zero =>
    intro ln n1 n2 h1 h2 r0
    rw [safelock_lock_loop]
    conv_rhs => rw [safelock_lock_loop]
    simp
  | succ fuel ih =>
    intro ln n1 n2 h1 h2 r0
    rw [safelock_lock_loop]
    conv_rhs => rw [safelock_lock_loop]
    dsimp only
    by_cases hln : ln ≤ ERTS_PROC_LOCK_MAX_BIT
    · rw [if_pos hln]
      conv_rhs => rw [if_pos hln]
      by_cases hb1 : n1 &&& 1 <<< ln ≠ 0
      · rw [if_pos hb1]
        conv_rhs => rw [if_pos hb1]
        rw [ih]
        conv_rhs => rw [ih]
        simp [Nat.or_assoc, List.append_assoc]
      · rw [if_neg hb1]
        conv_rhs => rw [if_neg hb1]
        by_cases hb2 : n2 &&& 1 <<< ln ≠ 0
        · rw [if_pos hb2]
          conv_rhs => rw [if_pos hb2]
          rw [ih]
          conv_rhs => rw [ih]
          simp [Nat.or_assoc, List.append_assoc]
        · rw [if_neg hb2]
          conv_rhs => rw [if_neg hb2]
          rw [ih]
    · rw [if_neg hln]
      conv_rhs => rw [if_neg hln]
      simp

theorem subset_of_and_eq {a b : Nat} (h : a &&& b = a) (j : Nat)
    (hj : a.testBit j = true) : b.testBit j = true := by
  have h2 : (a &&& b).testBit j = a.testBit j := by rw [h]
  rw [Nat.testBit_land, hj] at h2
  simpa using h2

theorem and_MASK32 {a : Nat} (ha : a < 2 ^ 32) : a &&& MASK32 = a := by
  apply Nat.eq_of_testBit_eq
  intro i
  rw [Nat.testBit_land, tbMask32]
  by_cases hi : i < 32
  · simp [hi]
  · have : a.testBit i = false := by
      apply Nat.testBit_lt_two_pow
      calc a < 2 ^ 32 := ha
        _ ≤ 2 ^ i := Nat.pow_le_pow_right (by omega) (by omega)
    simp [this]

theorem or_lt_32 {a b : Nat} (ha : a < 32) (hb : b < 32) : a ||| b < 32 :=
  Nat.or_lt_two_pow (n := 5) ha hb

theorem safelock_lock_loop_spec (ln n1 n2 : Nat) (hln : ln ≤ 5)
    (h1 : n1 < 32) (h2 : n2 < 32)
    (hlow : (n1 ||| n2) &&& (2 ^ ln - 1) = 0) :
    (safelock_lock_loop 16 ln ⟨n1, n2, 0, 0, []⟩).need1 = 0 ∧
    (safelock_lock_loop 16 ln ⟨n1, n2, 0, 0, []⟩).need2 = 0 ∧
    (safelock_lock_loop 16 ln ⟨n1, n2, 0, 0, []⟩).have1 = n1 ∧
    (safelock_lock_loop 16 ln ⟨n1, n2, 0, 0, []⟩).have2 = n2 ∧
    runsAlternate (safelock_lock_loop 16 ln ⟨n1, n2, 0, 0, []⟩).runs ∧
    runsAscending (safelock_lock_loop 16 ln ⟨n1, n2, 0, 0, []⟩).runs ∧
    (∀ x ∈ (safelock_lock_loop 16 ln ⟨n1, n2, 0, 0, []⟩).runs, x.2 ≠ 0) ∧
    runsUnion true (safelock_lock_loop 16 ln ⟨n1, n2, 0, 0, []⟩).runs = n1 ∧
    runsUnion false (safelock_lock_loop 16 ln ⟨n1, n2, 0, 0, []⟩).runs = n2 := by
  have hmem : lockLoopOK ln n1 n2 = true := by
    have hl := lockLoopOK_all
    rw [List.all_eq_true] at hl
    have h6 := hl ln (List.mem_range.mpr (by omega))
    rw [List.all_eq_true] at h6
    have h7 := h6 n1 (List.mem_range.mpr h1)
    rw [List.all_eq_true] at h7
    exact h7 n2 (List.mem_range.mpr h2)
  rw [lockLoopOK, Bool.or_eq_true] at hmem
  rcases hmem with hbad | hok
  · rw [hlow] at hbad
    simp at hbad
  · rw [lockLoopOKSt] at hok
    simp only [Bool.and_eq_true, beq_iff_eq, List.all_eq_true, bne_iff_ne,
      runsAlternateb_iff, runsAscendingb_iff, and_assoc] at hok
    exact hok

theorem have_restore (n h u : Nat) (hn : n < 32) (hh : h &&& n = h)
    (hu : u &&& h = u) :
    (h &&& (MASK32 ^^^ u)) ||| ((n &&& (MASK32 ^^^ h)) ||| u) = n := by
  have hhlt : h < 32 := hh ▸ lt_of_le_of_lt Nat.and_le_right hn
  have hult : u < 32 := hu ▸ lt_of_le_of_lt Nat.and_le_right hhlt
  apply Nat.eq_of_testBit_eq
  intro i
  by_cases hi : i < 32
  · have hm : MASK32.testBit i = true := by rw [tbMask32]; simp [hi]
    rw [Nat.testBit_lor, Nat.testBit_lor, Nat.testBit_land, Nat.testBit_land,
      Nat.testBit_xor, Nat.testBit_xor, hm]
    simp only [Bool.true_xor]
    cases hui : u.testBit i with
    | true =>
      have hhi := subset_of_and_eq hu i hui
      have hni := subset_of_and_eq hh i hhi
      simp [hui, hhi, hni]
    | false =>
      cases hhi : h.testBit i with
      | true =>
        have hni := subset_of_and_eq hh i hhi
        simp [hui, hhi, hni]
      | false => simp [hui, hhi]
  · have hpow : (32 : Nat) ≤ 2 ^ i := by
      calc (32 : Nat) = 2 ^ 5 := rfl
        _ ≤ 2 ^ i := Nat.pow_le_pow_right (by omega) (by omega)
    have hnb : n.testBit i = false := Nat.testBit_lt_two_pow (by omega)
    have hhb : h.testBit i = false := Nat.testBit_lt_two_pow (by omega)
    have hub : u.testBit i = false := Nat.testBit_lt_two_pow (by omega)
    rw [Nat.testBit_lor, Nat.testBit_lor, Nat.testBit_land, Nat.testBit_land, hnb,
      hhb, hub]
    simp

theorem safelock_rest_spec (p1 : Nat) (p2 : Option Nat) (n1 h1 n2 h2 : Nat)
    (hn1 : n1 < 32) (hn2 : n2 < 32) (hs1 : h1 &&& n1 = h1) (hs2 : h2 &&& n2 = h2) :
    (safelock_rest p1 p2 n1 h1 n2 h2).p1 = p1 ∧
    (safelock_rest p1 p2 n1 h1 n2 h2).p2 = p2 ∧
    (safelock_rest p1 p2 n1 h1 n2 h2).have1 = n1 ∧
    (safelock_rest p1 p2 n1 h1 n2 h2).have2 = n2 ∧
    runsAlternate (safelock_rest p1 p2 n1 h1 n2 h2).runs ∧
    runsAscending (safelock_rest p1 p2 n1 h1 n2 h2).runs ∧
    (∀ x ∈ (safelock_rest p1 p2 n1 h1 n2 h2).runs, x.2 ≠ 0) ∧
    (safelock_rest p1 p2 n1 h1 n2 h2).events =
      (if (unlock_mask_go (n1 &&& (MASK32 ^^^ h1)) (n2 &&& (MASK32 ^^^ h2))
            5 0 ERTS_PROC_LOCKS_ALL).1 &&& h1 ≠ 0 then
        [SEvent.unlockEv p1 ((unlock_mask_go (n1 &&& (MASK32 ^^^ h1))
          (n2 &&& (MASK32 ^^^ h2)) 5 0 ERTS_PROC_LOCKS_ALL).1 &&& h1)] else []) ++
      (if (unlock_mask_go (n1 &&& (MASK32 ^^^ h1)) (n2 &&& (MASK32 ^^^ h2))
            5 0 ERTS_PROC_LOCKS_ALL).1 &&& h2 ≠ 0 then
        [SEvent.unlockEv (p2.getD p1) ((unlock_mask_go (n1 &&& (MASK32 ^^^ h1))
          (n2 &&& (MASK32 ^^^ h2)) 5 0 ERTS_PROC_LOCKS_ALL).1 &&& h2)] else []) ++
      (safelock_rest p1 p2 n1 h1 n2 h2).runs.map
        (fun x => SEvent.lockEv (if x.1 then p1 else p2.getD p1) x.2) ∧
    runsUnion true (safelock_rest p1 p2 n1 h1 n2 h2).runs =
      (n1 &&& (MASK32 ^^^ h1)) ||| ((unlock_mask_go (n1 &&& (MASK32 ^^^ h1))
        (n2 &&& (MASK32 ^^^ h2)) 5 0 ERTS_PROC_LOCKS_ALL).1 &&& h1) ∧
    runsUnion false (safelock_rest p1 p2 n1 h1 n2 h2).runs =
      (n2 &&& (MASK32 ^^^ h2)) ||| ((unlock_mask_go (n1 &&& (MASK32 ^^^ h1))
        (n2 &&& (MASK32 ^^^ h2)) 5 0 ERTS_PROC_LOCKS_ALL).1 &&& h2) := by
  have hh1le : h1 ≤ n1 := by rw [← hs1]; exact Nat.and_le_right
  have hh2le : h2 ≤ n2 := by rw [← hs2]; exact Nat.and_le_right
  have hh1lt : h1 < 32 := lt_of_le_of_lt hh1le hn1
  have hh2lt : h2 < 32 := lt_of_le_of_lt hh2le hn2
  simp only [safelock_rest]
  set nn1 := n1 &&& (MASK32 ^^^ h1) with hnn1def
  set nn2 := n2 &&& (MASK32 ^^^ h2) with hnn2def
  set um := unlock_mask_go nn1 nn2 5 0 ERTS_PROC_LOCKS_ALL with humdef
  set ul1 := um.1 &&& h1 with hul1def
  set ul2 := um.1 &&& h2 with hul2def
  have hnn1lt : nn1 < 32 := lt_of_le_of_lt Nat.and_le_left hn1
  have hnn2lt : nn2 < 32 := lt_of_le_of_lt Nat.and_le_left hn2
  obtain ⟨humlt, hble, hlowb, hchar, hstop⟩ := unlock_mask_go_spec nn1 hnn1lt nn2 hnn2lt
  rw [← humdef] at humlt hble hlowb hchar hstop
  have hul1lt : ul1 < 32 := lt_of_le_of_lt Nat.and_le_right hh1lt
  have hul2lt : ul2 < 32 := lt_of_le_of_lt Nat.and_le_right hh2lt
  have hul1sub : ul1 &&& h1 = ul1 := by
    rw [hul1def]
    apply Nat.eq_of_testBit_eq
    intro i
    simp only [Nat.testBit_land]
    cases h : h1.testBit i <;> simp [h]
  have hul2sub : ul2 &&& h2 = ul2 := by
    rw [hul2def]
    apply Nat.eq_of_testBit_eq
    intro i
    simp only [Nat.testBit_land]
    cases h : h2.testBit i <;> simp [h]
  have hif1 : (if ul1 ≠ 0 then nn1 ||| ul1 else nn1) = nn1 ||| ul1 := by
    by_cases h : ul1 ≠ 0
    · rw [if_pos h]
    · rw [if_neg h]
      push_neg at h
      rw [h, Nat.or_zero]
  have hif2 : (if ul2 ≠ 0 then nn2 ||| ul2 else nn2) = nn2 ||| ul2 := by
    by_cases h : ul2 ≠ 0
    · rw [if_pos h]
    · rw [if_neg h]
      push_neg at h
      rw [h, Nat.or_zero]
  have hif1h : (if ul1 ≠ 0 then h1 &&& (MASK32 ^^^ ul1) else h1) =
      h1 &&& (MASK32 ^^^ ul1) := by
    by_cases h : ul1 ≠ 0
    · rw [if_pos h]
    · rw [if_neg h]
      push_neg at h
      rw [h, Nat.xor_zero, and_MASK32 (lt_trans hh1lt (by norm_num))]
  have hif2h : (if ul2 ≠ 0 then h2 &&& (MASK32 ^^^ ul2) else h2) =
      h2 &&& (MASK32 ^^^ ul2) := by
    by_cases h : ul2 ≠ 0
    · rw [if_pos h]
    · rw [if_neg h]
      push_neg at h
      rw [h, Nat.xor_zero, and_MASK32 (lt_trans hh2lt (by norm_num))]
  rw [hif1, hif2, hif1h, hif2h]
  have he1lt : nn1 ||| ul1 < 32 := or_lt_32 hnn1lt hul1lt
  have he2lt : nn2 ||| ul2 < 32 := or_lt_32 hnn2lt hul2lt
  have hentry : ((nn1 ||| ul1) ||| (nn2 ||| ul2)) &&& (2 ^ um.2 - 1) = 0 := by
    apply Nat.eq_of_testBit_eq
    intro j
    rw [Nat.testBit_land, Nat.testBit_two_pow_sub_one, Nat.zero_testBit]
    by_cases hj : j < um.2
    · obtain ⟨hz1, hz2⟩ := hlowb j hj
      have hj5 : j < 5 := by omega
      have hmz : um.1.testBit j = false := by
        rw [hchar j hj5]
        simp [Nat.not_le.mpr hj]
      rw [Nat.testBit_lor, Nat.testBit_lor, Nat.testBit_lor, hz1, hz2,
        hul1def, hul2def, Nat.testBit_land, Nat.testBit_land, hmz]
      simp
    · simp [hj]
  obtain ⟨l1, l2, l3, l4, l5, l6, l7, l8, l9⟩ :=
    safelock_lock_loop_spec um.2 (nn1 ||| ul1) (nn2 ||| ul2) hble he1lt he2lt hentry
  rw [safelock_lock_loop_acc]
  dsimp only
  rw [List.nil_append, l3, l4, l8, l9]
  refine ⟨trivial, trivial, ?_, ?_, l5, l6, l7, trivial, rfl, rfl⟩
  · exact have_restore n1 h1 ul1 hn1 hs1 hul1sub
  · exact have_restore n2 h2 ul2 hn2 hs2 hul2sub

theorem or_subset {a b c d : Nat} (h1 : a &&& b = a) (h2 : c &&& d = c) :
    (a ||| c) &&& (b ||| d) = a ||| c := by
  apply Nat.eq_of_testBit_eq
  intro i
  simp only [Nat.testBit_land, Nat.testBit_lor]
  cases hai : a.testBit i with
  | true =>
    have h3 := subset_of_and_eq h1 i hai
    simp [hai, h3]
  | false =>
    cases hci : c.testBit i with
    | true =>
      have h3 := subset_of_and_eq h2 i hci
      simp [hci, h3]
    | false => simp [hai, hci]

theorem safelock_canon_lt {a b : Nat} (hab : a < b) (ah an bh bn : Nat) :
    safelock_canon (some a) ah an b bh bn = ⟨a, some b, an, ah, bn, bh⟩ := by
  simp only [safelock_canon]
  rw [if_pos hab]

theorem safelock_canon_gt {a b : Nat} (hab : b < a) (ah an bh bn : Nat) :
    safelock_canon (some a) ah an b bh bn = ⟨b, some a, bn, bh, an, ah⟩ := by
  simp only [safelock_canon]
  rw [if_neg (by omega), if_pos hab]

theorem safelock_canon_same (a : Nat) (ah an bh bn : Nat) :
    safelock_canon (some a) ah an a bh bn =
      ⟨a, none, an ||| bn, ah ||| bh, 0, 0⟩ := by
  simp only [safelock_canon]
  rw [if_neg (lt_irrefl a), if_neg (lt_irrefl a)]

theorem safelock_canon_none (ah an b bh bn : Nat) :
    safelock_canon none ah an b bh bn = ⟨b, none, bn, bh, 0, 0⟩ := rfl

theorem canon_bounds (a_proc : Option Nat) (ah an b bh bn : Nat)
    (han : an < 32) (hbn : bn < 32) (has : ah &&& an = ah) (hbs : bh &&& bn = bh) :
    (safelock_canon a_proc ah an b bh bn).need1 < 32 ∧
    (safelock_canon a_proc ah an b bh bn).need2 < 32 ∧
    (safelock_canon a_proc ah an b bh bn).have1 &&&
      (safelock_canon a_proc ah an b bh bn).need1 =
      (safelock_canon a_proc ah an b bh bn).have1 ∧
    (safelock_canon a_proc ah an b bh bn).have2 &&&
      (safelock_canon a_proc ah an b bh bn).need2 =
      (safelock_canon a_proc ah an b bh bn).have2 := by
  rcases a_proc with _ | a
  · rw [safelock_canon_none]
    exact ⟨hbn, by norm_num, hbs, by simp⟩
  · by_cases h1 : a < b
    · rw [safelock_canon_lt h1]
      exact ⟨han, hbn, has, hbs⟩
    · by_cases h2 : b < a
      · rw [safelock_canon_gt h2]
        exact ⟨hbn, han, hbs, has⟩
      · have hab : a = b := by omega
        subst hab
        rw [safelock_canon_same]
        exact ⟨or_lt_32 han hbn, by norm_num, or_subset has hbs, by simp⟩

theorem proc_safelock_eq (a_proc : Option Nat) (ah an b bh bn : Nat) :
    proc_safelock a_proc ah an b bh bn =
      safelock_rest (safelock_canon a_proc ah an b bh bn).p1
        (safelock_canon a_proc ah an b bh bn).p2
        (safelock_canon a_proc ah an b bh bn).need1
        (safelock_canon a_proc ah an b bh bn).have1
        (safelock_canon a_proc ah an b bh bn).need2
        (safelock_canon a_proc ah an b bh bn).have2 := rfl

theorem runsUnion_testBit (who : Bool) :
    ∀ (rs : List (Bool × Nat)) (i : Nat), (runsUnion who rs).testBit i = true →
      ∃ m, (who, m) ∈ rs ∧ m.testBit i = true := by
  intro rs
  induction rs with
  | nil =>
    intro i h
    rw [runsUnion, List.foldr_nil, Nat.zero_testBit] at h
    exact absurd h (by simp)
  | cons a t ih =>
    intro i h
    rw [runsUnion, List.foldr_cons] at h
    by_cases ha : a.1 = who
    · rw [if_pos ha] at h
      rw [Nat.testBit_lor, Bool.or_eq_true] at h
      rcases h with h | h
      · refine ⟨a.2, ?_, h⟩
        have : (who, a.2) = a := by rw [← ha]
        rw [this]
        exact List.mem_cons_self a t
      · rcases ih i h with ⟨m, hm, hb⟩
        exact ⟨m, List.mem_cons_of_mem a hm, hb⟩
    · rw [if_neg ha] at h
      rcases ih i h with ⟨m, hm, hb⟩
      exact ⟨m, List.mem_cons_of_mem a hm, hb⟩

/-- C2: for every call of `proc_safelock` with `b_proc` present
(`a_proc` possibly absent or equal to `b_proc`) and each held mask a
submask of the corresponding needed mask, the function returns with the
caller holding exactly `need_A` on `A` and `need_B` on `B` — in
canonical terms, `have1 = need1` and `have2 = need2` — with the
lower-identifier process bound as `P1` (equal identifiers merge both
mask pairs onto `P1` and leave `P2` absent), and all acquisitions done
in ascending facet order as alternating nonempty runs, each facet on
`P1` before `P2`. -/
theorem proc_safelock_correct (a_proc : Option Nat) (a_have a_need : Nat)
    (b_proc : Nat) (b_have b_need : Nat)
    (han : a_need < 32) (hbn : b_need < 32)
    (has : a_have &&& a_need = a_have) (hbs : b_have &&& b_need = b_have) :
    (proc_safelock a_proc a_have a_need b_proc b_have b_need).p1 =
      (safelock_canon a_proc a_have a_need b_proc b_have b_need).p1 ∧
    (proc_safelock a_proc a_have a_need b_proc b_have b_need).p2 =
      (safelock_canon a_proc a_have a_need b_proc b_have b_need).p2 ∧
    (proc_safelock a_proc a_have a_need b_proc b_have b_need).have1 =
      (safelock_canon a_proc a_have a_need b_proc b_have b_need).need1 ∧
    (proc_safelock a_proc a_have a_need b_proc b_have b_need).have2 =
      (safelock_canon a_proc a_have a_need b_proc b_have b_need).need2 ∧
    runsAlternate (proc_safelock a_proc a_have a_need b_proc b_have b_need).runs ∧
    runsAscending (proc_safelock a_proc a_have a_need b_proc b_have b_need).runs ∧
    (∀ x ∈ (proc_safelock a_proc a_have a_need b_proc b_have b_need).runs,
      x.2 ≠ 0) ∧
    (∀ a, a_proc = some a → a < b_proc →
      safelock_canon a_proc a_have a_need b_proc b_have b_need =
        ⟨a, some b_proc, a_need, a_have, b_need, b_have⟩) ∧
    (∀ a, a_proc = some a → b_proc < a →
      safelock_canon a_proc a_have a_need b_proc b_have b_need =
        ⟨b_proc, some a, b_need, b_have, a_need, a_have⟩) ∧
    (∀ a, a_proc = some a → ¬a < b_proc → ¬b_proc < a →
      safelock_canon a_proc a_have a_need b_proc b_have b_need =
        ⟨a, none, a_need ||| b_need, a_have ||| b_have, 0, 0⟩) ∧
    (a_proc = none →
      safelock_canon a_proc a_have a_need b_proc b_have b_need =
        ⟨b_proc, none, b_need, b_have, 0, 0⟩) := by
  obtain ⟨hb1, hb2, hsub1, hsub2⟩ :=
    canon_bounds a_proc a_have a_need b_proc b_have b_need han hbn has hbs
  obtain ⟨r1, r2, r3, r4, r5, r6, r7, r8, r9, r10⟩ :=
    safelock_rest_spec
      (safelock_canon a_proc a_have a_need b_proc b_have b_need).p1
      (safelock_canon a_proc a_have a_need b_proc b_have b_need).p2
      (safelock_canon a_proc a_have a_need b_proc b_have b_need).need1
      (safelock_canon a_proc a_have a_need b_proc b_have b_need).have1
      (safelock_canon a_proc a_have a_need b_proc b_have b_need).need2
      (safelock_canon a_proc a_have a_need b_proc b_have b_need).have2
      hb1 hb2 hsub1 hsub2
  rw [proc_safelock_eq]
  refine ⟨r1, r2, r3, r4, r5, r6, r7, ?_, ?_, ?_, ?_⟩
  · intro a ha hlt
    rw [ha]
    exact safelock_canon_lt hlt a_have a_need b_have b_need
  · intro a ha hgt
    rw [ha]
    exact safelock_canon_gt hgt a_have a_need b_have b_need
  · intro a ha hnlt hngt
    have hab : a = b_proc := by omega
    rw [ha, hab]
    exact safelock_canon_same b_proc a_have a_need b_have b_need
  · intro ha
    rw [ha]
    exact safelock_canon_none a_have a_need b_proc b_have b_need

/-- C1 (amended): the unlock mask of `proc_safelock` keeps exactly the
facets from the loop's stop position upward — the stop position itself
only when `P1` needs it — where the stop position is the lowest facet
still needed on either actor (5 when none is); exactly the caller's
held facets inside that mask are released, as one unlock per actor
placed before every acquisition, and the released facets are added back
to that actor's need set (the facets acquired on each actor are the
reduced needs plus the released facets).  The spec's claim that the
mask holds the facets strictly BELOW the lowest needed facet is refuted
by `ErlProcLock.spec_unlock_mask_refuted`. -/
theorem unlock_mask_correct (a_proc : Option Nat) (a_have a_need : Nat)
    (b_proc : Nat) (b_have b_need : Nat)
    (han : a_need < 32) (hbn : b_need < 32)
    (has : a_have &&& a_need = a_have) (hbs : b_have &&& b_need = b_have)
    (c : Canon) (hc : c = safelock_canon a_proc a_have a_need b_proc b_have b_need)
    (nn1 : Nat) (hnn1 : nn1 = c.need1 &&& (MASK32 ^^^ c.have1))
    (nn2 : Nat) (hnn2 : nn2 = c.need2 &&& (MASK32 ^^^ c.have2))
    (um : Nat × Nat) (hum : um = unlock_mask_go nn1 nn2 5 0 ERTS_PROC_LOCKS_ALL) :
    (∀ i, i < 5 → um.1.testBit i =
      (decide (um.2 ≤ i) && (nn1.testBit um.2 || decide (um.2 < i)))) ∧
    (∀ j, j < um.2 → nn1.testBit j = false ∧ nn2.testBit j = false) ∧
    (5 ≤ um.2 ∨ (nn1.testBit um.2 || nn2.testBit um.2) = true) ∧
    (proc_safelock a_proc a_have a_need b_proc b_have b_need).events =
      (if um.1 &&& c.have1 ≠ 0 then
        [SEvent.unlockEv c.p1 (um.1 &&& c.have1)] else []) ++
      (if um.1 &&& c.have2 ≠ 0 then
        [SEvent.unlockEv (c.p2.getD c.p1) (um.1 &&& c.have2)] else []) ++
      (proc_safelock a_proc a_have a_need b_proc b_have b_need).runs.map
        (fun x => SEvent.lockEv (if x.1 then c.p1 else c.p2.getD c.p1) x.2) ∧
    runsUnion true (proc_safelock a_proc a_have a_need b_proc b_have b_need).runs =
      nn1 ||| (um.1 &&& c.have1) ∧
    runsUnion false (proc_safelock a_proc a_have a_need b_proc b_have b_need).runs =
      nn2 ||| (um.1 &&& c.have2) := by
  subst hc
  subst hnn1
  subst hnn2
  subst hum
  obtain ⟨hb1, hb2, hsub1, hsub2⟩ :=
    canon_bounds a_proc a_have a_need b_proc b_have b_need han hbn has hbs
  have hnn1lt :
      (safelock_canon a_proc a_have a_need b_proc b_have b_need).need1 &&&
        (MASK32 ^^^ (safelock_canon a_proc a_have a_need b_proc b_have b_need).have1) <
        32 := lt_of_le_of_lt Nat.and_le_left hb1
  have hnn2lt :
      (safelock_canon a_proc a_have a_need b_proc b_have b_need).need2 &&&
        (MASK32 ^^^ (safelock_canon a_proc a_have a_need b_proc b_have b_need).have2) <
        32 := lt_of_le_of_lt Nat.and_le_left hb2
  obtain ⟨humlt, hble, hlowb, hchar, hstop⟩ := unlock_mask_go_spec _ hnn1lt _ hnn2lt
  obtain ⟨r1, r2, r3, r4, r5, r6, r7, r8, r9, r10⟩ :=
    safelock_rest_spec
      (safelock_canon a_proc a_have a_need b_proc b_have b_need).p1
      (safelock_canon a_proc a_have a_need b_proc b_have b_need).p2
      (safelock_canon a_proc a_have a_need b_proc b_have b_need).need1
      (safelock_canon a_proc a_have a_need b_proc b_have b_need).have1
      (safelock_canon a_proc a_have a_need b_proc b_have b_need).need2
      (safelock_canon a_proc a_have a_need b_proc b_have b_need).have2
      hb1 hb2 hsub1 hsub2
  rw [proc_safelock_eq]
  exact ⟨hchar, hlowb, hstop, r8, r9, r10⟩

/-- C10: `proc_safelock` requires each held mask to be a submask of the
corresponding needed mask — the debug lock-checker test
`safelock_lc_violation` fails exactly when a held facet lies outside
the needed mask — and under that contract every facet the function
unlocks reappears in a later lock event to the same actor: nothing is
released without being re-acquired. -/
theorem safelock_release_contract (a_proc : Option Nat) (a_have a_need : Nat)
    (b_proc : Nat) (b_have b_need : Nat)
    (han : a_need < 32) (hbn : b_need < 32)
    (has : a_have &&& a_need = a_have) (hbs : b_have &&& b_need = b_have) :
    (∀ need_locks have_locks : Nat,
      safelock_lc_violation need_locks have_locks = false ↔
        need_locks &&& have_locks = have_locks) ∧
    safelock_lc_violation a_need a_have = false ∧
    safelock_lc_violation b_need b_have = false ∧
    (∀ p m, SEvent.unlockEv p m ∈
        (proc_safelock a_proc a_have a_need b_proc b_have b_need).events →
      ∀ i, i < 5 → m.testBit i = true →
      ∃ m2, SEvent.lockEv p m2 ∈
          (proc_safelock a_proc a_have a_need b_proc b_have b_need).events ∧
        m2.testBit i = true) := by
  obtain ⟨hb1, hb2, hsub1, hsub2⟩ :=
    canon_bounds a_proc a_have a_need b_proc b_have b_need han hbn has hbs
  obtain ⟨r1, r2, r3, r4, r5, r6, r7, r8, r9, r10⟩ :=
    safelock_rest_spec
      (safelock_canon a_proc a_have a_need b_proc b_have b_need).p1
      (safelock_canon a_proc a_have a_need b_proc b_have b_need).p2
      (safelock_canon a_proc a_have a_need b_proc b_have b_need).need1
      (safelock_canon a_proc a_have a_need b_proc b_have b_need).have1
      (safelock_canon a_proc a_have a_need b_proc b_have b_need).need2
      (safelock_canon a_proc a_have a_need b_proc b_have b_need).have2
      hb1 hb2 hsub1 hsub2
  refine ⟨?_, ?_, ?_, ?_⟩
  · intro nl hl
    rw [safelock_lc_violation]
    simp
  · rw [safelock_lc_violation]
    simp only [decide_eq_false_iff_not, ne_eq, not_not]
    rw [Nat.land_comm]
    exact has
  · rw [safelock_lc_violation]
    simp only [decide_eq_false_iff_not, ne_eq, not_not]
    rw [Nat.land_comm]
    exact hbs
  · intro p m hmem i hi hbit
    rw [proc_safelock_eq] at hmem ⊢
    rw [r8] at hmem
    rcases List.mem_append.mp hmem with hm1 | hm2
    · rcases List.mem_append.mp hm1 with hu1 | hu2
      · by_cases h : (unlock_mask_go
            ((safelock_canon a_proc a_have a_need b_proc b_have b_need).need1 &&&
              (MASK32 ^^^ (safelock_canon a_proc a_have a_need b_proc b_have b_need).have1))
            ((safelock_canon a_proc a_have a_need b_proc b_have b_need).need2 &&&
              (MASK32 ^^^ (safelock_canon a_proc a_have a_need b_proc b_have b_need).have2))
            5 0 ERTS_PROC_LOCKS_ALL).1 &&&
            (safelock_canon a_proc a_have a_need b_proc b_have b_need).have1 ≠ 0
        · rw [if_pos h] at hu1
          rcases List.mem_singleton.mp hu1 with heq
          obtain ⟨hp, hm⟩ : p = (safelock_canon a_proc a_have a_need b_proc b_have b_need).p1 ∧
              m = (unlock_mask_go
                ((safelock_canon a_proc a_have a_need b_proc b_have b_need).need1 &&&
                  (MASK32 ^^^ (safelock_canon a_proc a_have a_need b_proc b_have b_need).have1))
                ((safelock_canon a_proc a_have a_need b_proc b_have b_need).need2 &&&
                  (MASK32 ^^^ (safelock_canon a_proc a_have a_need b_proc b_have b_need).have2))
                5 0 ERTS_PROC_LOCKS_ALL).1 &&&
                (safelock_canon a_proc a_have a_need b_proc b_have b_need).have1 := by
            cases heq
            exact ⟨rfl, rfl⟩
          have hbit2 : (runsUnion true (safelock_rest
              (safelock_canon a_proc a_have a_need b_proc b_have b_need).p1
              (safelock_canon a_proc a_have a_need b_proc b_have b_need).p2
              (safelock_canon a_proc a_have a_need b_proc b_have b_need).need1
              (safelock_canon a_proc a_have a_need b_proc b_have b_need).have1
              (safelock_canon a_proc a_have a_need b_proc b_have b_need).need2
              (safelock_canon a_proc a_have a_need b_proc b_have b_need).have2).runs).testBit
              i = true := by
            rw [r9, Nat.testBit_lor, ← hm, hbit]
            simp
          rcases runsUnion_testBit true _ i hbit2 with ⟨m2, hm2mem, hm2bit⟩
          refine ⟨m2, ?_, hm2bit⟩
          rw [r8]
          refine List.mem_append.mpr (Or.inr ?_)
          refine List.mem_map.mpr ⟨(true, m2), hm2mem, ?_⟩
          rw [hp]
          simp
        · rw [if_neg h] at hu1
          exact absurd hu1 (List.not_mem_nil _)
      · by_cases h : (unlock_mask_go
            ((safelock_canon a_proc a_have a_need b_proc b_have b_need).need1 &&&
              (MASK32 ^^^ (safelock_canon a_proc a_have a_need b_proc b_have b_need).have1))
            ((safelock_canon a_proc a_have a_need b_proc b_have b_need).need2 &&&
              (MASK32 ^^^ (safelock_canon a_proc a_have a_need b_proc b_have b_need).have2))
            5 0 ERTS_PROC_LOCKS_ALL).1 &&&
            (safelock_canon a_proc a_have a_need b_proc b_have b_need).have2 ≠ 0
        · rw [if_pos h] at hu2
          rcases List.mem_singleton.mp hu2 with heq
          obtain ⟨hp, hm⟩ : p = ((safelock_canon a_proc a_have a_need b_proc b_have
                b_need).p2.getD
                (safelock_canon a_proc a_have a_need b_proc b_have b_need).p1) ∧
              m = (unlock_mask_go
                ((safelock_canon a_proc a_have a_need b_proc b_have b_need).need1 &&&
                  (MASK32 ^^^ (safelock_canon a_proc a_have a_need b_proc b_have b_need).have1))
                ((safelock_canon a_proc a_have a_need b_proc b_have b_need).need2 &&&
                  (MASK32 ^^^ (safelock_canon a_proc a_have a_need b_proc b_have b_need).have2))
                5 0 ERTS_PROC_LOCKS_ALL).1 &&&
                (safelock_canon a_proc a_have a_need b_proc b_have b_need).have2 := by
            cases heq
            exact ⟨rfl, rfl⟩
          have hbit2 : (runsUnion false (safelock_rest
              (safelock_canon a_proc a_have a_need b_proc b_have b_need).p1
              (safelock_canon a_proc a_have a_need b_proc b_have b_need).p2
              (safelock_canon a_proc a_have a_need b_proc b_have b_need).need1
              (safelock_canon a_proc a_have a_need b_proc b_have b_need).have1
              (safelock_canon a_proc a_have a_need b_proc b_have b_need).need2
              (safelock_canon a_proc a_have a_need b_proc b_have b_need).have2).runs).testBit
              i = true := by
            rw [r10, Nat.testBit_lor, ← hm, hbit]
            simp
          rcases runsUnion_testBit false _ i hbit2 with ⟨m2, hm2mem, hm2bit⟩
          refine ⟨m2, ?_, hm2bit⟩
          rw [r8]
          refine List.mem_append.mpr (Or.inr ?_)
          refine List.mem_map.mpr ⟨(false, m2), hm2mem, ?_⟩
          rw [hp]
          simp
        · rw [if_neg h] at hu2
          exact absurd hu2 (List.not_mem_nil _)
    · exfalso
      rcases List.mem_map.mp hm2 with ⟨x, _, hx⟩
      exact SEvent.noConfusion hx

/-- C1, counterexample to the spec's mask: for the call
`proc_safelock none 0 0 5 1 5` (one process, holding facet 0, needing
facets 0 and 2), the spec's "all facets strictly below the lowest
still-needed facet" gives mask 3 = {0,1}, which contains held facet 0
and so demands an unlock; the code's mask is 28 = {2,3,4}, contains no
held facet, and the run performs no unlock at all — its only event is
the lock of facet 2. -/
theorem spec_unlock_mask_refuted :
    spec_unlock_mask ((5 : Nat) &&& (MASK32 ^^^ 1)) 0 = 3 ∧
    (unlock_mask_go ((5 : Nat) &&& (MASK32 ^^^ 1)) 0 5 0 ERTS_PROC_LOCKS_ALL).1 = 28 ∧
    (3 : Nat) &&& 1 = 1 ∧ (28 : Nat) &&& 1 = 0 ∧
    (proc_safelock none 0 0 5 1 5).events = [SEvent.lockEv 5 4] := by decide

/-- Witness for C1's amended theorem at a concrete call. -/
theorem unlock_mask_correct_witness :
    ((0 : Nat) < 32 ∧ (5 : Nat) < 32 ∧ (0 : Nat) &&& 0 = 0 ∧ (1 : Nat) &&& 5 = 1 ∧
      (⟨7, none, 5, 1, 0, 0⟩ : Canon) = safelock_canon none 0 0 7 1 5 ∧
      (4 : Nat) = (5 : Nat) &&& (MASK32 ^^^ 1) ∧
      (0 : Nat) = (0 : Nat) &&& (MASK32 ^^^ 0) ∧
      ((28, 2) : Nat × Nat) = unlock_mask_go 4 0 5 0 ERTS_PROC_LOCKS_ALL) ∧
    ((∀ i, i < 5 → (28 : Nat).testBit i =
      (decide (2 ≤ i) && ((4 : Nat).testBit 2 || decide (2 < i)))) ∧
    (∀ j, j < 2 → (4 : Nat).testBit j = false ∧ (0 : Nat).testBit j = false) ∧
    (5 ≤ 2 ∨ ((4 : Nat).testBit 2 || (0 : Nat).testBit 2) = true) ∧
    (proc_safelock none 0 0 7 1 5).events =
      (if (28 : Nat) &&& 1 ≠ 0 then [SEvent.unlockEv 7 (28 &&& 1)] else []) ++
      (if (28 : Nat) &&& 0 ≠ 0 then [SEvent.unlockEv 7 (28 &&& 0)] else []) ++
      (proc_safelock none 0 0 7 1 5).runs.map
        (fun x => SEvent.lockEv (if x.1 then 7 else 7) x.2) ∧
    runsUnion true (proc_safelock none 0 0 7 1 5).runs = 4 ||| (28 &&& 1) ∧
    runsUnion false (proc_safelock none 0 0 7 1 5).runs = 0 ||| (28 &&& 0)) :=
  ⟨⟨by decide, by decide, by decide, by decide, by decide, by decide, by decide,
    by decide⟩,
   unlock_mask_correct none 0 0 7 1 5 (by decide) (by decide) (by decide)
     (by decide) ⟨7, none, 5, 1, 0, 0⟩ (by decide) 4 (by decide) 0 (by decide)
     ((28, 2)) (by decide)⟩

/-- Witness for C2 at a concrete call. -/
theorem proc_safelock_correct_witness :
    ((3 : Nat) < 32 ∧ (5 : Nat) < 32 ∧ (1 : Nat) &&& 3 = 1 ∧ (4 : Nat) &&& 5 = 4) ∧
    ((proc_safelock (some 1) 1 3 2 4 5).p1 = (safelock_canon (some 1) 1 3 2 4 5).p1 ∧
    (proc_safelock (some 1) 1 3 2 4 5).p2 = (safelock_canon (some 1) 1 3 2 4 5).p2 ∧
    (proc_safelock (some 1) 1 3 2 4 5).have1 =
      (safelock_canon (some 1) 1 3 2 4 5).need1 ∧
    (proc_safelock (some 1) 1 3 2 4 5).have2 =
      (safelock_canon (some 1) 1 3 2 4 5).need2 ∧
    runsAlternate (proc_safelock (some 1) 1 3 2 4 5).runs ∧
    runsAscending (proc_safelock (some 1) 1 3 2 4 5).runs ∧
    (∀ x ∈ (proc_safelock (some 1) 1 3 2 4 5).runs, x.2 ≠ 0) ∧
    (∀ a, (some 1 : Option Nat) = some a → a < 2 →
      safelock_canon (some 1) 1 3 2 4 5 = ⟨a, some 2, 3, 1, 5, 4⟩) ∧
    (∀ a, (some 1 : Option Nat) = some a → 2 < a →
      safelock_canon (some 1) 1 3 2 4 5 = ⟨2, some a, 5, 4, 3, 1⟩) ∧
    (∀ a, (some 1 : Option Nat) = some a → ¬a < 2 → ¬2 < a →
      safelock_canon (some 1) 1 3 2 4 5 = ⟨a, none, 3 ||| 5, 1 ||| 4, 0, 0⟩) ∧
    ((some 1 : Option Nat) = none →
      safelock_canon (some 1) 1 3 2 4 5 = ⟨2, none, 5, 4, 0, 0⟩)) :=
  ⟨⟨by decide, by decide, by decide, by decide⟩,
   proc_safelock_correct (some 1) 1 3 2 4 5 (by decide) (by decide) (by decide)
     (by decide)⟩

/-- Witness for C10 at a concrete call. -/
theorem safelock_release_contract_witness :
    ((3 : Nat) < 32 ∧ (6 : Nat) < 32 ∧ (1 : Nat) &&& 3 = 1 ∧ (4 : Nat) &&& 6 = 4) ∧
    ((∀ need_locks have_locks : Nat,
      safelock_lc_violation need_locks have_locks = false ↔
        need_locks &&& have_locks = have_locks) ∧
    safelock_lc_violation 3 1 = false ∧
    safelock_lc_violation 6 4 = false ∧
    (∀ p m, SEvent.unlockEv p m ∈ (proc_safelock (some 3) 1 3 2 4 6).events →
      ∀ i, i < 5 → m.testBit i = true →
      ∃ m2, SEvent.lockEv p m2 ∈ (proc_safelock (some 3) 1 3 2 4 6).events ∧
        m2.testBit i = true)) :=
  ⟨⟨by decide, by decide, by decide, by decide⟩,
   safelock_release_contract (some 3) 1 3 2 4 6 (by decide) (by decide)
     (by decide) (by decide)⟩

/-!
`erts_pid2proc_opt` (lines 823-998): look a process up by pid and lock
the requested locks on it, with optional try-only semantics.  The
collaborators declared outside this file are modelled from the spec:
the process table reads (`erts_ptab_pix2intptr_ddrb` at line 871 as
`env.tab`, `erts_ptab_pix2intptr_nob` at line 976 as `env.tab2`), the
`ERTS_PROC_IS_EXITING` flag (`env.exiting`), the target's lock word and
queues (`env.lck`), and `erts_proc_raw_trylock__` (an atomic cmpxchg
that takes all requested locks when none is held and otherwise fails
leaving the lock word and queues untouched).  Thread-progress delay and
reference counting touch only external collaborators and are not
modelled; the blocking `proc_safelock` call (line 955) is recorded in
`safelock_called`, and the re-validation unlock (line 978) in
`unlock_events`.
-/

structure P2PFlags where
  allow_other_x : Bool
  try_lock : Bool
  inc_refc : Bool

structure P2PEnv where
  internal_pid : Bool
  tab : Option Nat
  tab2 : Option Nat
  exiting : Nat → Bool
  lck : ProcLock

inductive P2PRes where
  | null
  | busy
  | proc (pid : Nat)
deriving DecidableEq

structure P2POut where
  res : P2PRes
  lck : ProcLock
  safelock_called : Bool
  unlock_events : List (Nat × Nat)

def erts_proc_raw_trylock (lck : ProcLock) (locks : Nat) : Bool × ProcLock :=
  if lck.flags &&& locks = 0 then (false, ⟨lck.flags ||| locks, lck.queue⟩)
  else (true, lck)

def p2p_final (res : P2PRes) (lck : ProcLock) (sl : Bool)
    (need_locks : Nat) (flags : P2PFlags) (env : P2PEnv) : P2POut :=
  match res with
  | P2PRes.proc q =>
    if need_locks != 0 &&
        (if flags.allow_other_x then decide (env.tab2 ≠ some q)
         else env.exiting q) then
      ⟨P2PRes.null, lck, sl, [(q, need_locks)]⟩
    else ⟨res, lck, sl, []⟩
  | _ => ⟨res, lck, sl, []⟩

theorem p2p_final_null (lck : ProcLock) (sl : Bool) (need_locks : Nat)
    (flags : P2PFlags) (env : P2PEnv) :
    p2p_final P2PRes.null lck sl need_locks flags env =
      ⟨P2PRes.null, lck, sl, []⟩ := rfl

theorem p2p_final_busy (lck : ProcLock) (sl : Bool) (need_locks : Nat)
    (flags : P2PFlags) (env : P2PEnv) :
    p2p_final P2PRes.busy lck sl need_locks flags env =
      ⟨P2PRes.busy, lck, sl, []⟩ := rfl

def p2p_body (c_p : Option Nat) (c_p_have_locks pid need_locks : Nat)
    (flags : P2PFlags) (env : P2PEnv) : P2POut :=
  match env.tab with
  | none => p2p_final P2PRes.null env.lck false need_locks flags env
  | some q =>
    if q ≠ pid then p2p_final P2PRes.null env.lck false need_locks flags env
    else if need_locks = 0 then
      p2p_final (P2PRes.proc q) env.lck false need_locks flags env
    else
      let t := erts_proc_raw_trylock env.lck need_locks
      if t.1 = false then
        p2p_final (P2PRes.proc q) t.2 false need_locks flags env
      else if flags.try_lock then
        p2p_final P2PRes.busy t.2 false need_locks flags env
      else
        p2p_final (P2PRes.proc q) t.2 true need_locks flags env

/-- The value `need_locks` holds when control reaches the table lookup at
line 871: `pid_need_locks`, reduced by the caller's held locks when the
lookup is a self lookup (line 861). -/
def p2p_eff_need (c_p : Option Nat) (c_p_have_locks pid pid_need_locks : Nat) :
    Nat :=
  match c_p with
  | some cp =>
    if cp = pid then pid_need_locks &&& (MASK32 ^^^ c_p_have_locks)
    else pid_need_locks
  | none => pid_need_locks

def erts_pid2proc_opt (c_p : Option Nat) (c_p_have_locks pid pid_need_locks : Nat)
    (flags : P2PFlags) (env : P2PEnv) : P2POut :=
  if env.internal_pid = false then ⟨P2PRes.null, env.lck, false, []⟩
  else
    match c_p with
    | some cp =>
      if cp = pid then
        if !flags.allow_other_x && env.exiting cp then
          ⟨P2PRes.null, env.lck, false, []⟩
        else
          let need_locks := pid_need_locks &&& (MASK32 ^^^ c_p_have_locks)
          if need_locks = 0 then ⟨P2PRes.proc cp, env.lck, false, []⟩
          else p2p_body (some cp) c_p_have_locks pid need_locks flags env
      else p2p_body (some cp) c_p_have_locks pid pid_need_locks flags env
    | none => p2p_body none c_p_have_locks pid pid_need_locks flags env

theorem p2p_final_live (q' : Nat) (lck : ProcLock) (sl : Bool)
    (need_locks : Nat) (flags : P2PFlags) (env : P2PEnv) (q : Nat)
    (hallow : flags.allow_other_x = false)
    (hres : (p2p_final (P2PRes.proc q') lck sl need_locks flags env).res =
      P2PRes.proc q) :
    q = q' ∧ (need_locks = 0 ∨ env.exiting q' = false) := by
  rw [p2p_final, hallow] at hres
  by_cases hc : (need_locks != 0 && (if (false : Bool) then
      decide (env.tab2 ≠ some q') else env.exiting q')) = true
  · rw [if_pos hc] at hres
    exact absurd hres (by simp)
  · rw [if_neg hc] at hres
    simp only [Bool.if_false_left, Bool.if_false_right, Bool.and_eq_true,
      bne_iff_ne] at hc
    push_neg at hc
    have hq : q = q' := by
      have h2 : P2PRes.proc q' = P2PRes.proc q := hres
      cases h2
      rfl
    refine ⟨hq, ?_⟩
    by_cases hn : need_locks = 0
    · exact Or.inl hn
    · right
      rcases Bool.eq_false_or_eq_true (env.exiting q') with he | he
      · exfalso
        exact (hc hn) (by simp [he])
      · exact he

theorem p2p_body_live (c_p : Option Nat) (c_p_have_locks pid need_locks : Nat)
    (flags : P2PFlags) (env : P2PEnv) (q : Nat)
    (hallow : flags.allow_other_x = false)
    (hres : (p2p_body c_p c_p_have_locks pid need_locks flags env).res =
      P2PRes.proc q) :
    env.exiting q = false ∨ need_locks = 0 := by
  rw [p2p_body] at hres
  rcases htab : env.tab with _ | t
  · rw [htab] at hres
    dsimp only at hres
    rw [p2p_final_null] at hres
    exact absurd hres (by simp)
  · rw [htab] at hres
    dsimp only at hres
    by_cases hne : t ≠ pid
    · rw [if_pos hne, p2p_final_null] at hres
      exact absurd hres (by simp)
    rw [if_neg hne] at hres
    by_cases hz : need_locks = 0
    · exact Or.inr hz
    rw [if_neg hz] at hres
    by_cases htl : (erts_proc_raw_trylock env.lck need_locks).1 = false
    · rw [if_pos htl] at hres
      obtain ⟨hq, h2⟩ := p2p_final_live t _ _ _ _ _ q hallow hres
      rcases h2 with h2 | h2
      · exact Or.inr h2
      · exact Or.inl (hq ▸ h2)
    rw [if_neg htl] at hres
    by_cases hty : flags.try_lock = true
    · rw [if_pos hty, p2p_final_busy] at hres
      exact absurd hres (by simp)
    · rw [if_neg hty] at hres
      obtain ⟨hq, h2⟩ := p2p_final_live t _ _ _ _ _ q hallow hres
      rcases h2 with h2 | h2
      · exact Or.inr h2
      · exact Or.inl (hq ▸ h2)

/-- C7 (amended): whenever `erts_pid2proc_opt` returns a process (not
the not-found or busy sentinel), the returned process is not exiting,
or the caller passed the allow-other-exit flag — except on the path
with a zero required lock mask that is not a self lookup, which returns
the table's process without any exiting check (refuted for that path by
`ErlProcLock.pid2proc_zero_mask_exiting`). -/
theorem pid2proc_live_enough (c_p : Option Nat)
    (c_p_have_locks pid pid_need_locks : Nat) (flags : P2PFlags) (env : P2PEnv)
    (q : Nat)
    (hres : (erts_pid2proc_opt c_p c_p_have_locks pid pid_need_locks
      flags env).res = P2PRes.proc q) :
    flags.allow_other_x = true ∨ env.exiting q = false ∨
      (pid_need_locks = 0 ∧ c_p ≠ some pid) := by
  by_cases hallow : flags.allow_other_x = true
  · exact Or.inl hallow
  have hallow2 : flags.allow_other_x = false := by
    cases h : flags.allow_other_x
    · rfl
    · exact absurd h hallow
  rw [erts_pid2proc_opt.eq_def] at hres
  by_cases hint : env.internal_pid = false
  · rw [if_pos hint] at hres
    exact absurd hres (by simp)
  rw [if_neg hint] at hres
  rcases c_p with _ | cp
  all_goals dsimp only at hres
  · rcases p2p_body_live none c_p_have_locks pid pid_need_locks flags env q
      hallow2 hres with h | h
    · exact Or.inr (Or.inl h)
    · exact Or.inr (Or.inr ⟨h, by simp⟩)
  · by_cases hcp : cp = pid
    · rw [if_pos hcp] at hres
      by_cases hex : (!flags.allow_other_x && env.exiting cp) = true
      · rw [if_pos hex] at hres
        exact absurd hres (by simp)
      rw [if_neg hex] at hres
      have hexf : env.exiting cp = false := by
        rcases Bool.eq_false_or_eq_true (env.exiting cp) with he | he
        · exact absurd (by rw [hallow2, he]; rfl) hex
        · exact he
      by_cases hz : pid_need_locks &&& (MASK32 ^^^ c_p_have_locks) = 0
      · rw [if_pos hz] at hres
        have hq : q = cp := by
          have h2 : P2PRes.proc cp = P2PRes.proc q := hres
          cases h2
          rfl
        exact Or.inr (Or.inl (hq ▸ hexf))
      · rw [if_neg hz] at hres
        rcases p2p_body_live (some cp) c_p_have_locks pid
          (pid_need_locks &&& (MASK32 ^^^ c_p_have_locks)) flags env q
          hallow2 hres with h | h
        · exact Or.inr (Or.inl h)
        · exact absurd h hz
    · rw [if_neg hcp] at hres
      rcases p2p_body_live (some cp) c_p_have_locks pid pid_need_locks flags env
        q hallow2 hres with h | h
      · exact Or.inr (Or.inl h)
      · refine Or.inr (Or.inr ⟨h, ?_⟩)
        intro hcon
        exact hcp (by injection hcon)

/-- C9: a call with the try-lock flag, a nonzero effective lock mask
and a failing raw trylock returns the busy sentinel, does not call the
blocking safelock path, performs no unlock, and leaves the target's
lock word and wait queues untouched. -/
theorem pid2proc_trylock_busy (c_p : Option Nat)
    (c_p_have_locks pid pid_need_locks : Nat) (flags : P2PFlags) (env : P2PEnv)
    (htry : flags.try_lock = true)
    (hint : env.internal_pid = true)
    (htab : env.tab = some pid)
    (hself : ∀ cp, c_p = some cp → cp = pid →
      flags.allow_other_x = true ∨ env.exiting cp = false)
    (en : Nat)
    (hen : en = p2p_eff_need c_p c_p_have_locks pid pid_need_locks)
    (hnz : en ≠ 0)
    (hbusy : env.lck.flags &&& en ≠ 0) :
    (erts_pid2proc_opt c_p c_p_have_locks pid pid_need_locks flags env).res =
      P2PRes.busy ∧
    (erts_pid2proc_opt c_p c_p_have_locks pid pid_need_locks
      flags env).safelock_called = false ∧
    (erts_pid2proc_opt c_p c_p_have_locks pid pid_need_locks flags env).lck =
      env.lck ∧
    (erts_pid2proc_opt c_p c_p_have_locks pid pid_need_locks
      flags env).unlock_events = [] := by
  have hbody : ∀ cn chl,
      p2p_body cn chl pid en flags env = ⟨P2PRes.busy, env.lck, false, []⟩ := by
    intro cn chl
    rw [p2p_body, htab]
    dsimp only
    rw [if_neg (not_ne_iff.mpr rfl), if_neg hnz]
    have htl : erts_proc_raw_trylock env.lck en = (true, env.lck) := by
      rw [erts_proc_raw_trylock, if_neg hbusy]
    rw [htl]
    dsimp only
    rw [if_neg (by simp), if_pos htry, p2p_final_busy]
  rw [erts_pid2proc_opt.eq_def]
  rw [if_neg (by rw [hint]; simp)]
  rcases hc : c_p with _ | cp
  · subst hc
    rw [p2p_eff_need.eq_def] at hen
    dsimp only at hen
    subst hen
    rw [hbody none c_p_have_locks]
    exact ⟨rfl, rfl, rfl, rfl⟩
  · subst hc
    rw [p2p_eff_need.eq_def] at hen
    dsimp only at hen
    dsimp only
    by_cases hcp : cp = pid
    · rw [if_pos hcp] at hen
      subst hen
      rw [if_pos hcp]
      have hnex : ¬(!flags.allow_other_x && env.exiting cp) = true := by
        rcases hself cp rfl hcp with h | h
        · rw [h]
          simp
        · rw [h]
          simp
      rw [if_neg hnex]
      rw [if_neg hnz, hbody (some cp) c_p_have_locks]
      exact ⟨rfl, rfl, rfl, rfl⟩
    · rw [if_neg hcp] at hen
      subst hen
      rw [if_neg hcp, hbody (some cp) c_p_have_locks]
      exact ⟨rfl, rfl, rfl, rfl⟩

/-- C7, counterexample: a non-self lookup of an exiting process with a
zero required lock mask and without the allow-other-exit flag returns
the process — the claim's "this holds on every return path, including
the path with a zero required lock mask" fails, because the final
re-validation at line 970 is guarded by `need_locks` being nonzero and
the zero-mask table path performs no exiting check. -/
theorem pid2proc_zero_mask_exiting :
    (erts_pid2proc_opt none 0 7 0 ⟨false, false, false⟩
      ⟨true, some 7, some 7, fun _ => true, ⟨0, fun _ => []⟩⟩).res =
      P2PRes.proc 7 ∧
    (⟨true, some 7, some 7, fun _ => true,
      ⟨0, fun _ => []⟩⟩ : P2PEnv).exiting 7 = true ∧
    (⟨false, false, false⟩ : P2PFlags).allow_other_x = false ∧
    (0 : Nat) = 0 := ⟨rfl, rfl, rfl, rfl⟩

/-- Witness for C7's amended theorem at a concrete call. -/
theorem pid2proc_live_enough_witness :
    ((erts_pid2proc_opt none 0 4 1 ⟨false, false, false⟩
      ⟨true, some 4, some 4, fun _ => false, ⟨0, fun _ => []⟩⟩).res =
      P2PRes.proc 4) ∧
    ((⟨false, false, false⟩ : P2PFlags).allow_other_x = true ∨
      (⟨true, some 4, some 4, fun _ => false,
        ⟨0, fun _ => []⟩⟩ : P2PEnv).exiting 4 = false ∨
      ((1 : Nat) = 0 ∧ (none : Option Nat) ≠ some 4)) :=
  ⟨rfl, pid2proc_live_enough none 0 4 1 ⟨false, false, false⟩
    ⟨true, some 4, some 4, fun _ => false, ⟨0, fun _ => []⟩⟩ 4 rfl⟩

/-- Witness for C9 at a concrete call. -/
theorem pid2proc_trylock_busy_witness :
    ((⟨false, true, false⟩ : P2PFlags).try_lock = true ∧
      (⟨true, some 3, some 3, fun _ => false,
        ⟨1, fun _ => []⟩⟩ : P2PEnv).internal_pid = true ∧
      (⟨true, some 3, some 3, fun _ => false,
        ⟨1, fun _ => []⟩⟩ : P2PEnv).tab = some 3 ∧
      (1 : Nat) ≠ 0 ∧ (1 : Nat) &&& 1 ≠ 0) ∧
    ((erts_pid2proc_opt none 0 3 1 ⟨false, true, false⟩
      ⟨true, some 3, some 3, fun _ => false, ⟨1, fun _ => []⟩⟩).res =
      P2PRes.busy ∧
    (erts_pid2proc_opt none 0 3 1 ⟨false, true, false⟩
      ⟨true, some 3, some 3, fun _ => false,
        ⟨1, fun _ => []⟩⟩).safelock_called = false ∧
    (erts_pid2proc_opt none 0 3 1 ⟨false, true, false⟩
      ⟨true, some 3, some 3, fun _ => false, ⟨1, fun _ => []⟩⟩).lck =
      (⟨true, some 3, some 3, fun _ => false,
        ⟨1, fun _ => []⟩⟩ : P2PEnv).lck ∧
    (erts_pid2proc_opt none 0 3 1 ⟨false, true, false⟩
      ⟨true, some 3, some 3, fun _ => false,
        ⟨1, fun _ => []⟩⟩).unlock_events = []) :=
  ⟨⟨rfl, rfl, rfl, by decide, by decide⟩,
   pid2proc_trylock_busy none 0 3 1 ⟨false, true, false⟩
     ⟨true, some 3, some 3, fun _ => false, ⟨1, fun _ => []⟩⟩ rfl rfl rfl
     (fun cp h => absurd h (by simp)) 1 rfl (by decide) (by decide)⟩

end ErlProcLock
